import Mathlib

/-!
# Recording controller (`pkg/controller/recording/recording_controller.go`)

A shallow embedding of the Recording reconciler.  Pure helpers of the controller
become Lean functions.  `Reconcile` talks to collaborators (the resource store,
the Container JFR client, the common reconciler); their answers are read from an
environment `Env`, and every call that is made is recorded, in order, in a trace
of `Call`s.  The in-memory `instance` and the object held by the store are
passed explicitly.
-/

namespace RecordingController

/-! ## Data model -/

/-- Go `error` values.  The controller only ever asks `kerrors.IsNotFound` of an
error, so errors are split into not-found errors and all others. -/
inductive Error where
  | notFound (msg : String)
  | other (msg : String)
  deriving DecidableEq, Repr

/-- The test `kerrors.IsNotFound(err)`. -/
def IsNotFound : Error → Bool
  | .notFound _ => true
  | .other _ => false

/-- Modelled from the spec: the type `rhjmcv1alpha2.RecordingState`, declared in
`pkg/apis/rhjmc/v1alpha2`; it is a string type (`rhjmcv1alpha2.RecordingState(state)`
converts a `string`). -/
abbrev RecordingState := String

/-- Modelled from the spec: the constant `rhjmcv1alpha2.RecordingStateCreated`, declared in
`pkg/apis/rhjmc/v1alpha2` (the remote state string `"RUNNING"` projects to `Running`,
so the canonical values are the upper-case names). -/
def RecordingStateCreated : RecordingState := "CREATED"

/-- Modelled from the spec: the constant `rhjmcv1alpha2.RecordingStateRunning`. -/
def RecordingStateRunning : RecordingState := "RUNNING"

/-- Modelled from the spec: the constant `rhjmcv1alpha2.RecordingStateStopping`. -/
def RecordingStateStopping : RecordingState := "STOPPING"

/-- Modelled from the spec: the constant `rhjmcv1alpha2.RecordingStateStopped`. -/
def RecordingStateStopped : RecordingState := "STOPPED"

/-- Name used for Finalizer that handles Container JFR recording deletion. -/
def recordingFinalizer : String := "recording.finalizer.rhjmc.redhat.com"

/-- The constant `time.Millisecond`, in nanoseconds. -/
def Millisecond : Int := 1000000

/-- The constant `time.Second`, in nanoseconds. -/
def Second : Int := 1000000000

/-- Two's complement wrap-around of a 64 bit signed integer (`int64`, `time.Duration`). -/
def wrapInt64 (x : Int) : Int := (x + 2 ^ 63) % 2 ^ 64 - 2 ^ 63

/-- Modelled from the spec: the type `rhjmcv1alpha2.RecordingSpec`, declared in
`pkg/apis/rhjmc/v1alpha2`, with the fields that the controller reads.
`Duration` is a `metav1.Duration` in nanoseconds, `State` and `FlightRecorder`
(a `*corev1.LocalObjectReference`, reduced to its `Name`) are pointers. -/
structure RecordingSpec where
  Name : String
  EventOptions : List String
  Duration : Int
  State : Option RecordingState
  Archive : Bool
  FlightRecorder : Option String
  deriving DecidableEq, Repr

/-- Modelled from the spec: the type `rhjmcv1alpha2.RecordingStatus`, declared in
`pkg/apis/rhjmc/v1alpha2`, with the fields that the controller reads and writes.
`StartTime` is a `metav1.Time` held as nanoseconds since the epoch. -/
structure RecordingStatus where
  State : Option RecordingState
  StartTime : Int
  Duration : Int
  DownloadURL : Option String
  deriving DecidableEq, Repr

/-- Modelled from the spec: the resource type `rhjmcv1alpha2.Recording`, declared in
`pkg/apis/rhjmc/v1alpha2`, with the object metadata the controller uses (namespace, name,
deletion timestamp, finalizers). -/
structure Recording where
  Namespace : String
  Name : String
  DeletionTimestamp : Option Int
  Finalizers : List String
  Spec : RecordingSpec
  Status : RecordingStatus
  deriving DecidableEq, Repr

/-- A `corev1.ObjectReference`, as used for `FlightRecorder.Status.Target`. -/
structure ObjectReference where
  Namespace : String
  Name : String
  deriving DecidableEq, Repr

/-- Modelled from the spec: the type `rhjmcv1alpha2.FlightRecorder`, declared in
`pkg/apis/rhjmc/v1alpha2`, with the fields that the controller reads: `Status.Target` and
`Status.Port`. -/
structure FlightRecorder where
  Target : Option ObjectReference
  Port : Int
  deriving DecidableEq, Repr

/-- A `corev1.Service`, identified by namespace and name. -/
structure Service where
  Namespace : String
  Name : String
  deriving DecidableEq, Repr

/-- A `corev1.Endpoints`; only the number of `Subsets` is inspected. -/
structure Endpoints where
  Subsets : List String
  deriving DecidableEq, Repr

/-- Modelled from the spec: the `ContainerJFR` resource returned by `FindContainerJFR`,
declared in `pkg/apis/rhjmc`; the controller reads its namespace and name. -/
structure ContainerJFR where
  Namespace : String
  Name : String
  deriving DecidableEq, Repr

/-- Modelled from the spec: the type `jfrclient.RecordingDescriptor`, declared in
`pkg/client`: name, raw state string, start time (epoch milliseconds) and duration
(milliseconds). -/
structure RecordingDescriptor where
  Name : String
  State : String
  StartTime : Int
  Duration : Int
  deriving DecidableEq, Repr

/-- Modelled from the spec: the type `jfrclient.SavedRecording`, declared in `pkg/client`:
name and download URL. -/
structure SavedRecording where
  Name : String
  DownloadURL : String
  deriving DecidableEq, Repr

/-- A `reconcile.Request`. -/
structure Request where
  Namespace : String
  Name : String
  deriving DecidableEq, Repr

/-- A `reconcile.Result`; `RequeueAfter` is a `time.Duration` in nanoseconds. -/
structure Result where
  Requeue : Bool := false
  RequeueAfter : Int := 0
  deriving DecidableEq, Repr

/-! ## Pure helpers -/

/-- The function `validateRecordingState`: the Go pair `(&convState, nil)` is `.ok`, the
pair `(nil, fmt.Errorf(...))` is `.error`. -/
def validateRecordingState (state : String) : Except Error RecordingState :=
  let convState : RecordingState := state
  if convState = RecordingStateCreated ∨ convState = RecordingStateRunning ∨
      convState = RecordingStateStopping ∨ convState = RecordingStateStopped then
    .ok convState
  else
    .error (.other ("unknown recording state " ++ state))

/-- The function `shouldStopRecording`. -/
def shouldStopRecording (recording : Recording) : Bool :=
  match recording.Spec.State, recording.Status.State with
  | some requested, some current =>
    decide (requested = RecordingStateStopped) && decide (current ≠ RecordingStateStopped) &&
      decide (current ≠ RecordingStateStopping)
  | _, _ => false

/-- The loop of `hasRecordingFinalizer` over `recording.GetFinalizers()`. -/
def hasRecordingFinalizerLoop : List String → Bool
  | [] => false
  | finalizer :: rest =>
    if finalizer = recordingFinalizer then true else hasRecordingFinalizerLoop rest

/-- The function `hasRecordingFinalizer`. -/
def hasRecordingFinalizer (recording : Recording) : Bool :=
  hasRecordingFinalizerLoop recording.Finalizers

/-- The search loop of `removeRecordingFinalizer`: the index of the first finalizer equal to
`recordingFinalizer`, counting from `idx`, or `-1` when the loop ends without a `break`. -/
def findFinalizerIdx : List String → Int → Int
  | [], _ => -1
  | finalizer :: rest, idx =>
    if finalizer = recordingFinalizer then idx else findFinalizerIdx rest (idx + 1)

/-- The slice expression `append(finalizers[:foundIdx], finalizers[foundIdx+1:]...)`. -/
def removeAt (finalizers : List String) (foundIdx : Int) : List String :=
  finalizers.take foundIdx.toNat ++ finalizers.drop (foundIdx.toNat + 1)

/-- The loop of `findRecordingByName` over the descriptors. -/
def findDescriptor (name : String) : List RecordingDescriptor → Option RecordingDescriptor
  | [] => none
  | recording :: rest => if recording.Name = name then some recording else findDescriptor name rest

/-- The loop of `findDownloadURL` over the saved recordings. -/
def findSaved (filename : String) : List SavedRecording → Option String
  | [] => none
  | saved :: rest => if filename = saved.Name then some saved.DownloadURL else findSaved filename rest

/-! ## Collaborators -/

/-- A call made by the controller to one of its collaborators, with its arguments:
the common reconciler (`FindContainerJFR`, `ConnectToContainerJFR`, `ConnectToService`,
`DisconnectClient`, `CloseClient`), the resource store (`Get...`, `Update`,
`StatusUpdate`), the client lock, and the Container JFR client `r.JfrClient`. -/
inductive Call where
  | FindContainerJFR (ns : String)
  | ConnectToContainerJFR (ns name : String)
  | GetRecording (ns name : String)
  | GetFlightRecorder (ns name : String)
  | GetService (ns name : String)
  | GetEndpoints (ns name : String)
  | Update (recording : Recording)
  | StatusUpdate (recording : Recording)
  | Lock
  | Unlock
  | ConnectToService (svc : Service) (port : Int)
  | DisconnectClient
  | CloseClient
  | StartRecording (name : String) (eventOptions : List String)
  | DumpRecording (name : String) (seconds : Int) (eventOptions : List String)
  | StopRecording (name : String)
  | ListRecordings
  | SaveRecording (name : String)
  | ListSavedRecordings
  | DeleteRecording (name : String)
  | DeleteSavedRecording (file : String)
  deriving DecidableEq, Repr

/-- The collaborators of the controller, taken as a parameter: the Container JFR client
(`pkg/client`), the common reconciler (`pkg/controller/common`) and the resource store.
The record holds their answers during one invocation of `Reconcile`.  Each field is
the answer to the call of the same name, as a function of the call's arguments; a method
returning only `error` answers `none` for `nil`.  Every call is made at most once per
invocation, so arbitrary collaborators are covered by arbitrary values of this record.
`urlPath` stands for `url.Parse(s)` followed by `.Path`, `pathBase` for `path.Base`, and
`seconds` for the conversion `int(d.Seconds())` of a duration in nanoseconds, which goes
through floating point. -/
structure Env where
  FindContainerJFR : String → Except Error ContainerJFR
  ConnectToContainerJFR : String → String → Option Error
  GetRecording : String → String → Except Error Recording
  GetFlightRecorder : String → String → Except Error FlightRecorder
  GetService : String → String → Except Error Service
  GetEndpoints : String → String → Except Error Endpoints
  Update : Recording → Option Error
  StatusUpdate : Recording → Option Error
  ConnectToService : Service → Int → Option Error
  StartRecording : String → List String → Option Error
  DumpRecording : String → Int → List String → Option Error
  StopRecording : String → Option Error
  ListRecordings : Except Error (List RecordingDescriptor)
  SaveRecording : String → Except Error String
  ListSavedRecordings : Except Error (List SavedRecording)
  DeleteRecording : String → Option Error
  DeleteSavedRecording : String → Option Error
  urlPath : String → Except Error String
  pathBase : String → String
  seconds : Int → Int

/-- What one invocation of `Reconcile` leaves behind: the returned `reconcile.Result` and
error, the in-memory `instance` and the object held by the store (both `none` when the
Recording was never fetched), and the calls made, in order. -/
structure Outcome where
  result : Result
  err : Option Error
  inst : Option Recording
  stored : Option Recording
  trace : List Call
  deriving DecidableEq, Repr

/-- The state after `addRecordingFinalizer` or `removeRecordingFinalizer`: the returned
error, the in-memory recording, the object held by the store, and the calls made. -/
structure FinalizerOp where
  err : Option Error
  recording : Recording
  stored : Recording
  calls : List Call
  deriving DecidableEq, Repr

/-! ## Methods of `ReconcileRecording` -/

/-- The method `getFlightRecorder`; `len(jfrRef.Name) == 0` holds of the empty string
only. -/
def getFlightRecorder (env : Env) (recording : Recording) :
    Except Error (Option FlightRecorder) × List Call :=
  match recording.Spec.FlightRecorder with
  | none => (.ok none, [])
  | some jfrRefName =>
    if jfrRefName.length = 0 then (.ok none, [])
    else
      match env.GetFlightRecorder recording.Namespace jfrRefName with
      | .ok jfr => (.ok (some jfr), [Call.GetFlightRecorder recording.Namespace jfrRefName])
      | .error err =>
        if IsNotFound err then (.ok none, [Call.GetFlightRecorder recording.Namespace jfrRefName])
        else (.error err, [Call.GetFlightRecorder recording.Namespace jfrRefName])

/-- The method `findDownloadURL`. -/
def findDownloadURL (env : Env) (filename : String) : Except Error (Option String) × List Call :=
  match env.ListSavedRecordings with
  | .error err => (.error err, [Call.ListSavedRecordings, Call.CloseClient])
  | .ok savedRecordings => (.ok (findSaved filename savedRecordings), [Call.ListSavedRecordings])

/-- The method `findRecordingByName`. -/
def findRecordingByName (env : Env) (name : String) :
    Except Error (Option RecordingDescriptor) × List Call :=
  match env.ListRecordings with
  | .error err => (.error err, [Call.ListRecordings, Call.CloseClient])
  | .ok descriptors => (.ok (findDescriptor name descriptors), [Call.ListRecordings])

/-- The method `deleteRecording`. -/
def deleteRecording (env : Env) (recording : Recording) : Option Error × List Call :=
  let recName := recording.Spec.Name
  match findRecordingByName env recName with
  | (.error err, calls) => (some err, calls)
  | (.ok none, calls) => (none, calls)
  | (.ok (some _), calls) =>
    match env.DeleteRecording recName with
    | some err => (some err, calls ++ [Call.DeleteRecording recName, Call.CloseClient])
    | none => (none, calls ++ [Call.DeleteRecording recName])

/-- The method `deleteSavedRecording`. -/
def deleteSavedRecording (env : Env) (recording : Recording) : Option Error × List Call :=
  match recording.Status.DownloadURL with
  | none => (none, [])
  | some downloadURL =>
    match env.urlPath downloadURL with
    | .error err => (some err, [])
    | .ok urlPath =>
      let jfrFile := env.pathBase urlPath
      match findDownloadURL env jfrFile with
      | (.error err, calls) => (some err, calls)
      | (.ok none, calls) => (none, calls)
      | (.ok (some _), calls) =>
        match env.DeleteSavedRecording jfrFile with
        | some err => (some err, calls ++ [Call.DeleteSavedRecording jfrFile, Call.CloseClient])
        | none => (none, calls ++ [Call.DeleteSavedRecording jfrFile])

/-- The method `addRecordingFinalizer`; `stored` is the object held by the store, which a
successful `r.Client.Update` replaces. -/
def addRecordingFinalizer (env : Env) (recording stored : Recording) : FinalizerOp :=
  let finalizers := recording.Finalizers ++ [recordingFinalizer]
  let recording := { recording with Finalizers := finalizers }
  match env.Update recording with
  | some err => ⟨some err, recording, stored, [Call.Update recording]⟩
  | none => ⟨none, recording, recording, [Call.Update recording]⟩

/-- The method `removeRecordingFinalizer`. -/
def removeRecordingFinalizer (env : Env) (recording stored : Recording) : FinalizerOp :=
  let finalizers := recording.Finalizers
  let foundIdx := findFinalizerIdx finalizers 0
  if foundIdx ≥ 0 then
    let recording := { recording with Finalizers := removeAt finalizers foundIdx }
    match env.Update recording with
    | some err => ⟨some err, recording, stored, [Call.Update recording]⟩
    | none => ⟨none, recording, recording, [Call.Update recording]⟩
  else ⟨none, recording, stored, []⟩

/-! ## `Reconcile`

The body of `Reconcile` is cut at its comment blocks into consecutive parts; each part
ends by returning or by running the next one. -/

/-- An early `return reconcile.Result{}, err`. -/
def failWith (err : Error) (inst stored : Option Recording) (trace : List Call) : Outcome :=
  ⟨{}, some err, inst, stored, trace⟩

/-- The calls `calls` were made before the outcome `o` was produced. -/
def Outcome.after (calls : List Call) (o : Outcome) : Outcome :=
  { o with trace := calls ++ o.trace }

/-- The deferred calls `calls` run when the invocation returns with outcome `o`. -/
def Outcome.deferred (o : Outcome) (calls : List Call) : Outcome :=
  { o with trace := o.trace ++ calls }

/-- The block "If the recording is found in Container JFR's list, update Recording.Status
with the newest info", once the descriptor has been looked up: the instance with its
status overwritten, or the validation error. -/
def projectStatus (inst : Recording) :
    Option RecordingDescriptor → Except Error Recording
  | none => .ok inst
  | some descriptor =>
    match validateRecordingState descriptor.State with
    | .error err => .error err
    | .ok state =>
      .ok { inst with Status := { inst.Status with
              State := some state
              StartTime := wrapInt64 (descriptor.StartTime * Millisecond)
              Duration := wrapInt64 (descriptor.Duration * Millisecond) } }

/-- The expression `instance.Status.State != nil && *instance.Status.State ==
rhjmcv1alpha2.RecordingStateStopped` that defines the local variable `isStopped`. -/
def stateIsStopped (inst : Recording) : Bool :=
  match inst.Status.State with
  | none => false
  | some state => decide (state = RecordingStateStopped)

/-- The block "Archive completed recording if requested and not already done": the
instance afterwards or the error returned, and the calls made.  `SaveRecording` answers
with a file name whenever it answers without error. -/
def archiveRecording (env : Env) (inst : Recording) (isStopped : Bool) :
    Except Error Recording × List Call :=
  if inst.Spec.Archive && inst.Status.DownloadURL.isNone && isStopped then
    match env.SaveRecording inst.Spec.Name with
    | .error err => (.error err, [Call.SaveRecording inst.Spec.Name, Call.CloseClient])
    | .ok filename =>
      match findDownloadURL env filename with
      | (.error err, calls) => (.error err, Call.SaveRecording inst.Spec.Name :: calls)
      | (.ok downloadURL, calls) =>
        (.ok { inst with Status := { inst.Status with DownloadURL := downloadURL } },
          Call.SaveRecording inst.Spec.Name :: calls)
  else (.ok inst, [])

/-- The blocks "Update Recording status" and "Requeue if the recording is still in
progress".  A successful `r.Client.Status().Update` leaves the instance in the store: its
metadata and spec are the stored ones already, since the update of the finalizers has
succeeded whenever this block is reached. -/
def updateStatus (env : Env) (inst stored : Recording) (isStopped : Bool) : Outcome :=
  match env.StatusUpdate inst with
  | some err => failWith err (some inst) (some stored) [Call.StatusUpdate inst]
  | none =>
    let result : Result := {}
    let result := if !isStopped then { result with RequeueAfter := 10 * Second } else result
    ⟨result, none, some inst, some inst, [Call.StatusUpdate inst]⟩

/-- From "If the recording is found in Container JFR's list" to the end of `Reconcile`. -/
def syncStatus (env : Env) (inst stored : Recording) : Outcome :=
  match findRecordingByName env inst.Spec.Name with
  | (.error err, calls) => failWith err (some inst) (some stored) calls
  | (.ok descriptor, calls) =>
    match projectStatus inst descriptor with
    | .error err => failWith err (some inst) (some stored) calls
    | .ok inst =>
      let isStopped := stateIsStopped inst
      match archiveRecording env inst isStopped with
      | (.error err, calls2) => failWith err (some inst) (some stored) (calls ++ calls2)
      | (.ok inst, calls2) => (updateStatus env inst stored isStopped).after (calls ++ calls2)

/-- The block "Tell Container JFR to create the recording if not already done" (the
create-or-stop step), followed by the rest of `Reconcile`. -/
def createOrStop (env : Env) (inst stored : Recording) : Outcome :=
  match inst.Status.State with
  | none =>
    if inst.Spec.Duration = 0 then
      match env.StartRecording inst.Spec.Name inst.Spec.EventOptions with
      | some err =>
        failWith err (some inst) (some stored)
          [Call.StartRecording inst.Spec.Name inst.Spec.EventOptions, Call.CloseClient]
      | none =>
        (syncStatus env inst stored).after
          [Call.StartRecording inst.Spec.Name inst.Spec.EventOptions]
    else
      match env.DumpRecording inst.Spec.Name (env.seconds inst.Spec.Duration)
          inst.Spec.EventOptions with
      | some err =>
        failWith err (some inst) (some stored)
          [Call.DumpRecording inst.Spec.Name (env.seconds inst.Spec.Duration)
            inst.Spec.EventOptions, Call.CloseClient]
      | none =>
        (syncStatus env inst stored).after
          [Call.DumpRecording inst.Spec.Name (env.seconds inst.Spec.Duration)
            inst.Spec.EventOptions]
  | some _ =>
    if shouldStopRecording inst then
      match env.StopRecording inst.Spec.Name with
      | some err =>
        failWith err (some inst) (some stored) [Call.StopRecording inst.Spec.Name, Call.CloseClient]
      | none => (syncStatus env inst stored).after [Call.StopRecording inst.Spec.Name]
    else syncStatus env inst stored

/-- From the second "Check if this Recording is being deleted" (after the connection to
the target service) to the end of `Reconcile`, without the deferred calls. -/
def reconcileConnected (env : Env) (inst : Recording) : Outcome :=
  if inst.DeletionTimestamp ≠ none then
    if hasRecordingFinalizer inst then
      let del := deleteRecording env inst
      let rem := removeRecordingFinalizer env inst inst
      match rem.err with
      | some err => failWith err (some rem.recording) (some rem.stored) (del.2 ++ rem.calls)
      | none => ⟨{}, none, some rem.recording, some rem.stored, del.2 ++ rem.calls⟩
    else ⟨{}, none, some inst, some inst, []⟩
  else if !hasRecordingFinalizer inst then
    let add := addRecordingFinalizer env inst inst
    match add.err with
    | some err => failWith err (some add.recording) (some add.stored) add.calls
    | none => (createOrStop env add.recording add.stored).after add.calls
  else createOrStop env inst inst

/-- From "Tell Container JFR to connect to the target service" to the end of `Reconcile`,
with the deferred `Unlock` and `DisconnectClient`; `calls` are the calls made since the
lookup of the service. -/
def connectTarget (env : Env) (inst : Recording) (jfr : FlightRecorder) (targetSvc : Service)
    (calls : List Call) : Outcome :=
  match env.ConnectToService targetSvc jfr.Port with
  | some err =>
    failWith err (some inst) (some inst)
      (calls ++ [Call.Lock, Call.ConnectToService targetSvc jfr.Port, Call.Unlock])
  | none =>
    ((reconcileConnected env inst).after
      (calls ++ [Call.Lock, Call.ConnectToService targetSvc jfr.Port])).deferred
      [Call.DisconnectClient, Call.Unlock]

/-- The test `len(endpoints.Subsets) == 0` of a Recording that is being deleted, and what
follows it. -/
def removeOrConnect (env : Env) (inst : Recording) (jfr : FlightRecorder) (targetSvc : Service)
    (calls : List Call) (endpoints : Endpoints) : Outcome :=
  if endpoints.Subsets.length = 0 then
    let rem := removeRecordingFinalizer env inst inst
    match rem.err with
    | some err => failWith err (some rem.recording) (some rem.stored) (calls ++ rem.calls)
    | none => ⟨{}, none, some rem.recording, some rem.stored, calls ++ rem.calls⟩
  else connectTarget env inst jfr targetSvc calls

/-- From "Look up service corresponding to this FlightRecorder object" to the end of
`Reconcile`.  When `r.Client.Get` answers with a not-found error, `endpoints` is still the
empty object `&corev1.Endpoints{}`. -/
def reconcileTarget (env : Env) (inst : Recording) (jfr : FlightRecorder) : Outcome :=
  match jfr.Target with
  | none => ⟨{ RequeueAfter := Second }, none, some inst, some inst, []⟩
  | some targetRef =>
    let getSvc := [Call.GetService targetRef.Namespace targetRef.Name]
    match env.GetService targetRef.Namespace targetRef.Name with
    | .error err => failWith err (some inst) (some inst) getSvc
    | .ok targetSvc =>
      if inst.DeletionTimestamp ≠ none && hasRecordingFinalizer inst then
        let getEps := getSvc ++ [Call.GetEndpoints targetRef.Namespace targetRef.Name]
        match env.GetEndpoints targetRef.Namespace targetRef.Name with
        | .ok endpoints => removeOrConnect env inst jfr targetSvc getEps endpoints
        | .error err =>
          if !IsNotFound err then failWith err (some inst) (some inst) getEps
          else removeOrConnect env inst jfr targetSvc getEps ⟨[]⟩
      else connectTarget env inst jfr targetSvc getSvc

/-- From the first "Check if this Recording is being deleted" to the end of `Reconcile`,
for the fetched `instance`. -/
def reconcileInstance (env : Env) (inst : Recording) : Outcome :=
  let delSaved : Option Error × List Call :=
    if inst.DeletionTimestamp ≠ none && hasRecordingFinalizer inst then
      deleteSavedRecording env inst
    else (none, [])
  match delSaved with
  | (some err, calls) => failWith err (some inst) (some inst) calls
  | (none, calls) =>
    match getFlightRecorder env inst with
    | (.error err, calls2) => failWith err (some inst) (some inst) (calls ++ calls2)
    | (.ok none, calls2) =>
      if inst.DeletionTimestamp ≠ none && hasRecordingFinalizer inst then
        let rem := removeRecordingFinalizer env inst inst
        ⟨{}, none, some rem.recording, some rem.stored, calls ++ calls2 ++ rem.calls⟩
      else ⟨{}, none, some inst, some inst, calls ++ calls2⟩
    | (.ok (some jfr), calls2) => (reconcileTarget env inst jfr).after (calls ++ calls2)

/-- The method `Reconcile`.  `jfrClient` tells whether the cached client `r.JfrClient` is
non-nil when the invocation starts. -/
def Reconcile (env : Env) (jfrClient : Bool) (request : Request) : Outcome :=
  let find := [Call.FindContainerJFR request.Namespace]
  match env.FindContainerJFR request.Namespace with
  | .error err => failWith err none none find
  | .ok cjfr =>
    let fetch (calls : List Call) : Outcome :=
      match env.GetRecording request.Namespace request.Name with
      | .error err =>
        if IsNotFound err then
          ⟨{}, none, none, none, calls ++ [Call.GetRecording request.Namespace request.Name]⟩
        else failWith err none none (calls ++ [Call.GetRecording request.Namespace request.Name])
      | .ok inst =>
        (reconcileInstance env inst).after
          (calls ++ [Call.GetRecording request.Namespace request.Name])
    if jfrClient then fetch find
    else
      match env.ConnectToContainerJFR cjfr.Namespace cjfr.Name with
      | some err =>
        failWith err none none (find ++ [Call.ConnectToContainerJFR cjfr.Namespace cjfr.Name])
      | none => fetch (find ++ [Call.ConnectToContainerJFR cjfr.Namespace cjfr.Name])

/-! ## Concrete inputs -/

/-- A Recording named `rec1` that refers to the FlightRecorder `fr`. -/
def rec1 : Recording :=
  { Namespace := "ns", Name := "rec1", DeletionTimestamp := none, Finalizers := [],
    Spec := { Name := "rec1", EventOptions := [], Duration := 0, State := none,
              Archive := false, FlightRecorder := some "fr" },
    Status := { State := none, StartTime := 0, Duration := 0, DownloadURL := none } }

/-- Collaborators that all succeed: the store holds `inst`, the FlightRecorder reports the
target `jfr`, the service has one endpoint subset, and the remote agent lists `descriptors`
and saved recordings `saved`. -/
def envOf (inst : Recording) (jfr : FlightRecorder) (descriptors : List RecordingDescriptor)
    (saved : List SavedRecording) : Env :=
  { FindContainerJFR := fun ns => .ok ⟨ns, "containerjfr"⟩
    ConnectToContainerJFR := fun _ _ => none
    GetRecording := fun _ _ => .ok inst
    GetFlightRecorder := fun _ _ => .ok jfr
    GetService := fun ns name => .ok ⟨ns, name⟩
    GetEndpoints := fun _ _ => .ok ⟨["10.0.0.1"]⟩
    Update := fun _ => none
    StatusUpdate := fun _ => none
    ConnectToService := fun _ _ => none
    StartRecording := fun _ _ => none
    DumpRecording := fun _ _ _ => none
    StopRecording := fun _ => none
    ListRecordings := .ok descriptors
    SaveRecording := fun name => .ok (name ++ ".jfr")
    ListSavedRecordings := .ok saved
    DeleteRecording := fun _ => none
    DeleteSavedRecording := fun _ => none
    urlPath := fun s => .ok s
    pathBase := fun s => s
    seconds := fun d => d / Second }

/-- A FlightRecorder whose target service `ns/svc` has been reported, on port 9091. -/
def jfrReady : FlightRecorder := { Target := some ⟨"ns", "svc"⟩, Port := 9091 }

/-- The request for `ns/rec1`. -/
def req1 : Request := ⟨"ns", "rec1"⟩

/-- The target service `ns/svc` of `jfrReady`. -/
def svc1 : Service := ⟨"ns", "svc"⟩

/-- A FlightRecorder that has not reported its target yet. -/
def jfrPending : FlightRecorder := { Target := none, Port := 9091 }

/-- The Recording `rec1` asked to run for 30 seconds. -/
def recTimed : Recording :=
  { rec1 with Spec := { rec1.Spec with Duration := 30 * Second } }

/-- The Recording `rec1` while it runs, holding the finalizer, with a stop requested. -/
def recRunning : Recording :=
  { rec1 with
    Finalizers := [recordingFinalizer]
    Spec := { rec1.Spec with State := some RecordingStateStopped }
    Status := { rec1.Status with State := some RecordingStateRunning, StartTime := 1000000000 } }

/-- The Recording `rec1` at rest: stopped, archived, holding the finalizer. -/
def recAtRest : Recording :=
  { rec1 with
    Finalizers := [recordingFinalizer]
    Spec := { rec1.Spec with Duration := 30 * Second, Archive := true }
    Status := { State := some RecordingStateStopped, StartTime := 1000000000,
                Duration := 30000000000, DownloadURL := some "https://cjfr/rec1.jfr" } }

/-- The descriptor the remote agent reports for `recAtRest`. -/
def descAtRest : RecordingDescriptor := ⟨"rec1", "STOPPED", 1000, 30000⟩

/-- The Recording `rec1` holding the finalizer, with a deletion marker. -/
def recDeleting : Recording :=
  { rec1 with DeletionTimestamp := some 5, Finalizers := [recordingFinalizer] }

/-- The Recording `rec1` with a deletion marker, holding the finalizer token twice. -/
def recDeletingTwice : Recording :=
  { rec1 with DeletionTimestamp := some 5, Finalizers := [recordingFinalizer, recordingFinalizer] }

/-- The Recording `rec1` with a deletion marker and no finalizer. -/
def recDeletedBare : Recording := { rec1 with DeletionTimestamp := some 5 }

/-- The Recording `rec1` without a reference to a FlightRecorder. -/
def recNoRef : Recording := { rec1 with Spec := { rec1.Spec with FlightRecorder := none } }

/-- The Recording `rec1` holding the finalizer. -/
def recHeld : Recording := { rec1 with Finalizers := [recordingFinalizer] }

/-- The descriptor the remote agent reports for `rec1` once it is started. -/
def descRunning : RecordingDescriptor := ⟨"rec1", "RUNNING", 1000, 0⟩

/-- Collaborators for the first reconciliation of `rec1`: the start succeeds and the
remote agent lists the recording as running. -/
def envStart : Env := envOf rec1 jfrReady [descRunning] []

/-- The Recording `rec1` after its first reconciliation under `envStart`. -/
def recStarted : Recording :=
  { rec1 with
    Finalizers := [recordingFinalizer]
    Status := { rec1.Status with State := some RecordingStateRunning, StartTime := 1000000000 } }

/-- Collaborators for `recAtRest`, which the remote agent reports unchanged. -/
def envAtRest : Env := envOf recAtRest jfrReady [descAtRest] [⟨"rec1.jfr", "https://cjfr/rec1.jfr"⟩]

/-- Collaborators for `recHeld`, which the remote agent lists as running once started. -/
def envHeld : Env := envOf recHeld jfrReady [descRunning] []

/-- Collaborators as in `envOf`, except that listing the live recordings fails. -/
def envListFails (inst : Recording) : Env :=
  { envOf inst jfrReady [] [] with ListRecordings := .error (.other "list failed") }

/-! ## Auxiliary definitions

Predicates on calls and outcomes in which the lemmas about `Reconcile` are stated. -/

/-- The calls that `Reconcile` can make before it has connected to the target service. -/
def Call.beforeConnect : Call → Bool
  | .FindContainerJFR _ => true
  | .ConnectToContainerJFR _ _ => true
  | .GetRecording _ _ => true
  | .GetFlightRecorder _ _ => true
  | .GetService _ _ => true
  | .GetEndpoints _ _ => true
  | .Update _ => true
  | .Lock => true
  | .Unlock => true
  | .ConnectToService _ _ => true
  | .CloseClient => true
  | .ListSavedRecordings => true
  | .DeleteSavedRecording _ => true
  | _ => false

/-- The lookups in the store and the set-up and tear-down of the connections: calls that
neither write to the store nor touch a recording of the remote agent. -/
def Call.isSetup : Call → Bool
  | .FindContainerJFR _ => true
  | .ConnectToContainerJFR _ _ => true
  | .GetRecording _ _ => true
  | .GetFlightRecorder _ _ => true
  | .GetService _ _ => true
  | .Lock => true
  | .Unlock => true
  | .ConnectToService _ _ => true
  | .DisconnectClient => true
  | _ => false

/-- The condition `instance.GetDeletionTimestamp() != nil && hasRecordingFinalizer(instance)`. -/
def deleting (inst : Recording) : Prop :=
  inst.DeletionTimestamp ≠ none ∧ hasRecordingFinalizer inst = true

/-- What holds of every call made before the target is connected. -/
def PreCall (inst : Recording) (c : Call) : Prop :=
  c.beforeConnect = true ∧ (∀ s p, c ≠ Call.ConnectToService s p) ∧
    (¬ deleting inst → c.isSetup = true)

/-- An outcome of an invocation for the fetched `inst` that ended before the target was
connected: only calls of the early kind were made, a call to `ConnectToService` failed,
the instance and the stored object differ from `inst` in their finalizers at most, and
unless a deletion is under way only lookups were made and nothing was changed. -/
structure Early (env : Env) (inst : Recording) (o : Outcome) : Prop where
  calls : ∀ c ∈ o.trace, c.beforeConnect = true
  connect : ∀ svc port, Call.ConnectToService svc port ∈ o.trace →
    env.ConnectToService svc port ≠ none
  quiet : ¬ deleting inst →
    (∀ c ∈ o.trace, c.isSetup = true) ∧ o.inst = some inst ∧ o.stored = some inst
  inst_eq : ∃ fs, o.inst = some { inst with Finalizers := fs }
  stored_eq : ∃ fs, o.stored = some { inst with Finalizers := fs }

/-- The instance after `removeRecordingFinalizer`. -/
def withoutFinalizer (inst : Recording) : Recording :=
  { inst with Finalizers := inst.Finalizers.erase recordingFinalizer }

/-- The finalizer of a Recording under deletion has been removed in the store. -/
def Removed (inst : Recording) (o : Outcome) : Prop :=
  deleting inst ∧ o.stored = some (withoutFinalizer inst)

/-- The shape of an outcome after the Recording is fetched: the invocation ends early
(without error only if `peeked` holds or the finalizer has been removed), or the target is
connected and `reconcileConnected` runs between the calls `pre` and the deferred calls. -/
def EarlyOrConnected (env : Env) (inst : Recording) (o : Outcome) (peeked : Prop) : Prop :=
  (Early env inst o ∧ (o.err = none → peeked ∨ Removed inst o)) ∨
    ∃ pre svc port, env.ConnectToService svc port = none ∧
      o = ((reconcileConnected env inst).after
            (pre ++ [Call.Lock, Call.ConnectToService svc port])).deferred
            [Call.DisconnectClient, Call.Unlock] ∧
      ∀ c ∈ pre, PreCall inst c

/-- The call that the create-or-stop step issues for `inst`, if any. -/
def createOrStopCalls (env : Env) (inst : Recording) : List Call :=
  match inst.Status.State with
  | none =>
    if inst.Spec.Duration = 0 then [Call.StartRecording inst.Spec.Name inst.Spec.EventOptions]
    else [Call.DumpRecording inst.Spec.Name (env.seconds inst.Spec.Duration) inst.Spec.EventOptions]
  | some _ => if shouldStopRecording inst then [Call.StopRecording inst.Spec.Name] else []

/-- Facts about the outcome `o` of a part of `Reconcile` run for an instance whose download
URL was `url`: a successful status write fixes the result, the archive calls are made only
when no download URL is set, and a download URL that is set stays. -/
structure Tail (env : Env) (url : Option String) (o : Outcome) : Prop where
  statusWrite : ∀ r, Call.StatusUpdate r ∈ o.trace → env.StatusUpdate r = none →
    o.err = none ∧ o.inst = some r ∧ o.stored = some r ∧
      o.result = (if r.Status.State = some RecordingStateStopped then ({} : Result)
        else { RequeueAfter := 10 * Second })
  save : ∀ c ∈ o.trace, ((∃ n, c = Call.SaveRecording n) ∨ c = Call.ListSavedRecordings) →
    url = none
  inst_url : ∃ i, o.inst = some i ∧ ∀ u, url = some u → i.Status.DownloadURL = some u
  stored_url : ∃ i, o.stored = some i ∧ ∀ u, url = some u → i.Status.DownloadURL = some u

/-- The calls that are neither a status write nor an archive call. -/
def Call.plain : Call → Bool
  | .StatusUpdate _ => false
  | .SaveRecording _ => false
  | .ListSavedRecordings => false
  | _ => true

/-- The calls that `syncStatus` can make. -/
def Call.isSync : Call → Bool
  | .ListRecordings => true
  | .CloseClient => true
  | .SaveRecording _ => true
  | .ListSavedRecordings => true
  | .StatusUpdate _ => true
  | _ => false

/-- The instance after `addRecordingFinalizer`. -/
def withFinalizer (inst : Recording) : Recording :=
  { inst with Finalizers := inst.Finalizers ++ [recordingFinalizer] }

/-! ## Lemmas on the pure helpers -/

theorem shouldStopRecording_iff (recording : Recording) :
    shouldStopRecording recording = true ↔
      recording.Spec.State = some RecordingStateStopped ∧
      ∃ current, recording.Status.State = some current ∧
        current ≠ RecordingStateStopped ∧ current ≠ RecordingStateStopping := by
  unfold shouldStopRecording
  cases hreq : recording.Spec.State <;> cases hcur : recording.Status.State <;> simp [and_assoc]

theorem hasRecordingFinalizerLoop_iff (finalizers : List String) :
    hasRecordingFinalizerLoop finalizers = true ↔ recordingFinalizer ∈ finalizers := by
  induction finalizers with
  | nil => simp [hasRecordingFinalizerLoop]
  | cons f rest ih =>
    unfold hasRecordingFinalizerLoop
    by_cases h : f = recordingFinalizer
    · simp [h]
    · simp [h, ih, Ne.symm h]

theorem hasRecordingFinalizer_iff (recording : Recording) :
    hasRecordingFinalizer recording = true ↔ recordingFinalizer ∈ recording.Finalizers :=
  hasRecordingFinalizerLoop_iff recording.Finalizers

theorem hasRecordingFinalizer_eq_false_iff (recording : Recording) :
    hasRecordingFinalizer recording = false ↔ recordingFinalizer ∉ recording.Finalizers := by
  rw [← hasRecordingFinalizer_iff]; simp

theorem findFinalizerIdx_nonneg_iff (finalizers : List String) (idx : Int) (hidx : 0 ≤ idx) :
    0 ≤ findFinalizerIdx finalizers idx ↔ recordingFinalizer ∈ finalizers := by
  induction finalizers generalizing idx with
  | nil => simp [findFinalizerIdx]
  | cons f rest ih =>
    unfold findFinalizerIdx
    by_cases h : f = recordingFinalizer
    · simp [h, hidx]
    · simp [h, Ne.symm h, ih (idx + 1) (by omega)]

theorem removeAt_findFinalizerIdx (finalizers : List String) (k : Nat)
    (hmem : recordingFinalizer ∈ finalizers) :
    ∃ j : Nat, findFinalizerIdx finalizers k = (k + j : Nat) ∧
      finalizers.take j ++ finalizers.drop (j + 1) = finalizers.erase recordingFinalizer := by
  induction finalizers generalizing k with
  | nil => simp at hmem
  | cons f rest ih =>
    unfold findFinalizerIdx
    by_cases h : f = recordingFinalizer
    · exact ⟨0, by simp [h], by simp [h]⟩
    · have hrest : recordingFinalizer ∈ rest := by
        simpa [Ne.symm h] using hmem
      obtain ⟨j, hj, hje⟩ := ih (k + 1) hrest
      refine ⟨j + 1, ?_, ?_⟩
      · simp only [h, if_false]
        have : ((k : Int) + 1) = ((k + 1 : Nat) : Int) := by push_cast; ring
        rw [this, hj]; push_cast; ring_nf
      · simp [List.erase_cons, h, hje]

theorem removeAt_eq_erase (finalizers : List String) (hmem : recordingFinalizer ∈ finalizers) :
    removeAt finalizers (findFinalizerIdx finalizers 0) = finalizers.erase recordingFinalizer := by
  obtain ⟨j, hj, hje⟩ := removeAt_findFinalizerIdx finalizers 0 hmem
  have h0 : findFinalizerIdx finalizers 0 = (j : Int) := by simpa using hj
  unfold removeAt
  rw [h0]
  simpa using hje

theorem removeRecordingFinalizer_recording (env : Env) (recording stored : Recording) :
    (removeRecordingFinalizer env recording stored).recording =
      { recording with Finalizers := recording.Finalizers.erase recordingFinalizer } := by
  unfold removeRecordingFinalizer
  by_cases hmem : recordingFinalizer ∈ recording.Finalizers
  · have h0 : findFinalizerIdx recording.Finalizers 0 ≥ 0 :=
      (findFinalizerIdx_nonneg_iff recording.Finalizers 0 (le_refl 0)).2 hmem
    simp only [h0, if_true, removeAt_eq_erase recording.Finalizers hmem]
    split <;> rfl
  · have h0 : ¬ findFinalizerIdx recording.Finalizers 0 ≥ 0 := fun h =>
      hmem ((findFinalizerIdx_nonneg_iff recording.Finalizers 0 (le_refl 0)).1 h)
    simp [h0, List.erase_of_not_mem hmem]

theorem removeRecordingFinalizer_of_mem (env : Env) (recording stored : Recording)
    (hmem : recordingFinalizer ∈ recording.Finalizers) :
    (removeRecordingFinalizer env recording stored).calls =
        [Call.Update { recording with Finalizers := recording.Finalizers.erase recordingFinalizer }] ∧
      (removeRecordingFinalizer env recording stored).err =
        env.Update { recording with Finalizers := recording.Finalizers.erase recordingFinalizer } ∧
      (removeRecordingFinalizer env recording stored).stored =
        (if env.Update { recording with Finalizers := recording.Finalizers.erase recordingFinalizer }
            = none
          then { recording with Finalizers := recording.Finalizers.erase recordingFinalizer }
          else stored) := by
  unfold removeRecordingFinalizer
  have h0 : findFinalizerIdx recording.Finalizers 0 ≥ 0 :=
    (findFinalizerIdx_nonneg_iff recording.Finalizers 0 (le_refl 0)).2 hmem
  simp only [h0, if_true, removeAt_eq_erase recording.Finalizers hmem]
  split <;> simp_all

theorem removeRecordingFinalizer_of_not_mem (env : Env) (recording stored : Recording)
    (hmem : recordingFinalizer ∉ recording.Finalizers) :
    removeRecordingFinalizer env recording stored = ⟨none, recording, stored, []⟩ := by
  unfold removeRecordingFinalizer
  have h0 : ¬ findFinalizerIdx recording.Finalizers 0 ≥ 0 := fun h =>
    hmem ((findFinalizerIdx_nonneg_iff recording.Finalizers 0 (le_refl 0)).1 h)
  simp [h0]

/-! ## Lemmas on the parts of `Reconcile` -/

@[simp] theorem Outcome.after_trace (calls : List Call) (o : Outcome) :
    (o.after calls).trace = calls ++ o.trace := rfl

@[simp] theorem Outcome.after_err (calls : List Call) (o : Outcome) :
    (o.after calls).err = o.err := rfl

@[simp] theorem Outcome.after_inst (calls : List Call) (o : Outcome) :
    (o.after calls).inst = o.inst := rfl

@[simp] theorem Outcome.after_stored (calls : List Call) (o : Outcome) :
    (o.after calls).stored = o.stored := rfl

@[simp] theorem Outcome.after_result (calls : List Call) (o : Outcome) :
    (o.after calls).result = o.result := rfl

@[simp] theorem Outcome.deferred_trace (calls : List Call) (o : Outcome) :
    (o.deferred calls).trace = o.trace ++ calls := rfl

@[simp] theorem Outcome.deferred_err (calls : List Call) (o : Outcome) :
    (o.deferred calls).err = o.err := rfl

@[simp] theorem Outcome.deferred_inst (calls : List Call) (o : Outcome) :
    (o.deferred calls).inst = o.inst := rfl

@[simp] theorem Outcome.deferred_stored (calls : List Call) (o : Outcome) :
    (o.deferred calls).stored = o.stored := rfl

@[simp] theorem Outcome.deferred_result (calls : List Call) (o : Outcome) :
    (o.deferred calls).result = o.result := rfl

theorem findRecordingByName_calls (env : Env) (name : String) (c : Call)
    (hc : c ∈ (findRecordingByName env name).2) :
    c = Call.ListRecordings ∨ c = Call.CloseClient := by
  unfold findRecordingByName at hc
  cases h : env.ListRecordings <;> simp [h] at hc <;> tauto

theorem findRecordingByName_ok (env : Env) (name : String) (d : Option RecordingDescriptor)
    (h : (findRecordingByName env name).1 = .ok d) :
    ∃ ds, env.ListRecordings = .ok ds ∧ d = findDescriptor name ds ∧
      (findRecordingByName env name).2 = [Call.ListRecordings] := by
  unfold findRecordingByName at h ⊢
  cases hl : env.ListRecordings with
  | error e => simp [hl] at h
  | ok ds => simp [hl] at h; exact ⟨ds, rfl, h.symm, by simp⟩

/-- Every outcome of `archiveRecording`. -/
theorem archiveRecording_cases (env : Env) (inst : Recording) (b : Bool) :
    archiveRecording env inst b = (.ok inst, []) ∨
      (inst.Status.DownloadURL = none ∧ ∃ e calls, archiveRecording env inst b = (.error e, calls) ∧
        ∀ c ∈ calls, c = Call.SaveRecording inst.Spec.Name ∨ c = Call.ListSavedRecordings ∨
          c = Call.CloseClient) ∨
      (inst.Status.DownloadURL = none ∧ ∃ url, archiveRecording env inst b =
        (.ok { inst with Status := { inst.Status with DownloadURL := url } },
          [Call.SaveRecording inst.Spec.Name, Call.ListSavedRecordings])) := by
  unfold archiveRecording findDownloadURL
  by_cases hcond : (inst.Spec.Archive && inst.Status.DownloadURL.isNone && b) = true
  · have hnone : inst.Status.DownloadURL = none := by
      simp at hcond; exact hcond.1.2
    rw [if_pos hcond]
    right
    cases hs : env.SaveRecording inst.Spec.Name <;> cases hl : env.ListSavedRecordings <;>
      simp [hnone] <;> exact ⟨_, _, ⟨rfl, rfl⟩, by simp⟩
  · rw [if_neg hcond]
    exact Or.inl rfl

theorem projectStatus_ok (inst : Recording) (d : Option RecordingDescriptor) (inst' : Recording)
    (h : projectStatus inst d = .ok inst') :
    ∃ st : RecordingStatus, inst' = { inst with Status := st } ∧
      st.DownloadURL = inst.Status.DownloadURL := by
  unfold projectStatus at h
  cases d with
  | none => simp at h; exact ⟨inst.Status, by rw [← h], rfl⟩
  | some descriptor =>
    cases hv : validateRecordingState descriptor.State <;> simp [hv] at h
    exact ⟨_, h.symm, rfl⟩

/-- Every outcome of `updateStatus`. -/
theorem updateStatus_cases (env : Env) (inst stored : Recording) (b : Bool) :
    (∃ e, env.StatusUpdate inst = some e ∧
        updateStatus env inst stored b = failWith e (some inst) (some stored) [Call.StatusUpdate inst]) ∨
      (env.StatusUpdate inst = none ∧
        updateStatus env inst stored b =
          ⟨if b then {} else { RequeueAfter := 10 * Second }, none, some inst, some inst,
            [Call.StatusUpdate inst]⟩) := by
  unfold updateStatus
  cases h : env.StatusUpdate inst with
  | some e => left; exact ⟨e, rfl, by simp⟩
  | none => right; cases b <;> simp

/-- Every outcome of `syncStatus`: it ends with an error and without a status write, or it
reaches `updateStatus` for an instance that differs from `inst` in its status only. -/
theorem syncStatus_cases (env : Env) (inst stored : Recording) :
    (∃ e calls, syncStatus env inst stored = failWith e (some inst) (some stored) calls ∧
        ∀ c ∈ calls, c = Call.ListRecordings ∨ c = Call.CloseClient) ∨
      (∃ e calls inst1, syncStatus env inst stored = failWith e (some inst1) (some stored) calls ∧
        (∃ ds, env.ListRecordings = .ok ds ∧
          projectStatus inst (findDescriptor inst.Spec.Name ds) = .ok inst1) ∧
        inst.Status.DownloadURL = none ∧
        ∀ c ∈ calls, c = Call.ListRecordings ∨ c = Call.CloseClient ∨
          c = Call.SaveRecording inst.Spec.Name ∨ c = Call.ListSavedRecordings) ∨
      (∃ calls inst1 inst2,
        syncStatus env inst stored =
          (updateStatus env inst2 stored (stateIsStopped inst1)).after calls ∧
        (∃ ds, env.ListRecordings = .ok ds ∧
          projectStatus inst (findDescriptor inst.Spec.Name ds) = .ok inst1) ∧
        (∃ url, inst2 = { inst1 with Status := { inst1.Status with DownloadURL := url } } ∧
          (∀ u, inst1.Status.DownloadURL = some u → url = some u)) ∧
        ∀ c ∈ calls, c = Call.ListRecordings ∨
          (inst.Status.DownloadURL = none ∧
            (c = Call.SaveRecording inst.Spec.Name ∨ c = Call.ListSavedRecordings))) := by
  unfold syncStatus
  rcases hf : findRecordingByName env inst.Spec.Name with ⟨r, calls⟩
  have hcalls := fun c => findRecordingByName_calls env inst.Spec.Name c
  rw [hf] at hcalls
  cases r with
  | error e => left; exact ⟨e, calls, rfl, fun c hc => hcalls c hc⟩
  | ok d =>
    obtain ⟨ds, hds, hd, hcs⟩ := findRecordingByName_ok env inst.Spec.Name d (by rw [hf])
    rw [hf] at hcs
    simp only at hcs
    subst hcs
    dsimp only
    cases hp : projectStatus inst d with
    | error e => left; exact ⟨e, _, rfl, fun c hc => hcalls c hc⟩
    | ok inst1 =>
      obtain ⟨st, hst, hurl⟩ := projectStatus_ok inst d inst1 hp
      have hdl : inst1.Status.DownloadURL = inst.Status.DownloadURL := by rw [hst]; exact hurl
      have hname : inst1.Spec.Name = inst.Spec.Name := by rw [hst]
      dsimp only
      rcases archiveRecording_cases env inst1 (stateIsStopped inst1) with
        ha | ⟨hnone, e, calls2, ha, hcalls2⟩ | ⟨hnone, url, ha⟩
      · right; right
        rw [ha]
        refine ⟨_, inst1, inst1, rfl, ⟨ds, hds, hd ▸ hp⟩, ⟨inst1.Status.DownloadURL, rfl, ?_⟩, ?_⟩
        · intro u hu; exact hu
        · intro c hc
          simp at hc
          exact Or.inl hc
      · right; left
        rw [ha]
        refine ⟨e, _, inst1, rfl, ⟨ds, hds, hd ▸ hp⟩, hdl ▸ hnone, ?_⟩
        intro c hc
        simp only [List.mem_append, List.mem_singleton] at hc
        rcases hc with hc | hc
        · exact Or.inl hc
        · have := hcalls2 c hc
          rw [hname] at this
          tauto
      · right; right
        rw [ha]
        refine ⟨_, inst1, _, rfl, ⟨ds, hds, hd ▸ hp⟩, ⟨url, rfl, ?_⟩, ?_⟩
        · intro u hu; rw [hnone] at hu; cases hu
        · intro c hc
          simp only [List.mem_append, List.mem_singleton, List.mem_cons, List.not_mem_nil,
            or_false] at hc
          rw [hname] at hc
          have hn : inst.Status.DownloadURL = none := hdl ▸ hnone
          tauto

/-! ### Invocations that end before the target is connected -/

theorem early_after {env : Env} {inst : Recording} {o : Outcome} (h : Early env inst o)
    (pre : List Call) (hpre : ∀ c ∈ pre, PreCall inst c) :
    Early env inst (o.after pre) := by
  refine ⟨?_, ?_, ?_, h.inst_eq, h.stored_eq⟩
  · intro c hc
    simp only [Outcome.after_trace, List.mem_append] at hc
    rcases hc with hc | hc
    · exact (hpre c hc).1
    · exact h.calls c hc
  · intro svc port hc
    simp only [Outcome.after_trace, List.mem_append] at hc
    rcases hc with hc | hc
    · exact absurd rfl ((hpre _ hc).2.1 svc port)
    · exact h.connect svc port hc
  · intro hnd
    obtain ⟨h1, h2, h3⟩ := h.quiet hnd
    refine ⟨?_, h2, h3⟩
    intro c hc
    simp only [Outcome.after_trace, List.mem_append] at hc
    rcases hc with hc | hc
    · exact (hpre c hc).2.2 hnd
    · exact h1 c hc

theorem removeRecordingFinalizer_calls (env : Env) (recording stored : Recording) (c : Call)
    (hc : c ∈ (removeRecordingFinalizer env recording stored).calls) :
    c = Call.Update { recording with Finalizers := recording.Finalizers.erase recordingFinalizer } := by
  by_cases hmem : recordingFinalizer ∈ recording.Finalizers
  · rw [(removeRecordingFinalizer_of_mem env recording stored hmem).1] at hc
    simpa using hc
  · rw [removeRecordingFinalizer_of_not_mem env recording stored hmem] at hc
    simp at hc

theorem removeRecordingFinalizer_stored (env : Env) (recording : Recording) :
    (removeRecordingFinalizer env recording recording).stored = recording ∨
      (removeRecordingFinalizer env recording recording).stored =
        { recording with Finalizers := recording.Finalizers.erase recordingFinalizer } := by
  by_cases hmem : recordingFinalizer ∈ recording.Finalizers
  · rw [(removeRecordingFinalizer_of_mem env recording recording hmem).2.2]
    split <;> simp
  · rw [removeRecordingFinalizer_of_not_mem env recording recording hmem]
    simp

/-- The outcome of a finalizer removal that ends the invocation early. -/
theorem early_of_remove (env : Env) (inst : Recording) (o : Outcome) (pre : List Call)
    (hdel : deleting inst) (hpre : ∀ c ∈ pre, PreCall inst c)
    (htrace : o.trace = pre ++ (removeRecordingFinalizer env inst inst).calls)
    (hinst : o.inst = some (removeRecordingFinalizer env inst inst).recording)
    (hstored : o.stored = some (removeRecordingFinalizer env inst inst).stored) :
    Early env inst o := by
  have hcalls := removeRecordingFinalizer_calls env inst inst
  refine ⟨?_, ?_, fun h => absurd hdel h, ?_, ?_⟩
  · intro c hc
    rw [htrace, List.mem_append] at hc
    rcases hc with hc | hc
    · exact (hpre c hc).1
    · rw [hcalls c hc]; rfl
  · intro svc port hc
    rw [htrace, List.mem_append] at hc
    rcases hc with hc | hc
    · exact absurd rfl ((hpre _ hc).2.1 svc port)
    · have := hcalls _ hc; cases this
  · exact ⟨_, by rw [hinst, removeRecordingFinalizer_recording]⟩
  · rcases removeRecordingFinalizer_stored env inst with h | h
    · exact ⟨inst.Finalizers, by rw [hstored, h]⟩
    · exact ⟨_, by rw [hstored, h]⟩

/-- An early `return` that leaves the fetched instance untouched, after the calls `pre`. -/
theorem early_of_untouched (env : Env) (inst : Recording) (o : Outcome) (pre : List Call)
    (hpre : ∀ c ∈ pre, PreCall inst c) (htrace : o.trace = pre)
    (hinst : o.inst = some inst) (hstored : o.stored = some inst) : Early env inst o := by
  refine ⟨?_, ?_, ?_, ⟨inst.Finalizers, by rw [hinst]⟩, ⟨inst.Finalizers, by rw [hstored]⟩⟩
  · intro c hc
    rw [htrace] at hc
    exact (hpre c hc).1
  · intro svc port hc
    rw [htrace] at hc
    exact absurd rfl ((hpre _ hc).2.1 svc port)
  · intro hnd
    refine ⟨?_, hinst, hstored⟩
    intro c hc
    rw [htrace] at hc
    exact (hpre c hc).2.2 hnd

theorem preCall_getService (inst : Recording) (ns name : String) :
    PreCall inst (Call.GetService ns name) := by
  simp [PreCall, Call.beforeConnect, Call.isSetup]

theorem preCall_getEndpoints (inst : Recording) (ns name : String) (hdel : deleting inst) :
    PreCall inst (Call.GetEndpoints ns name) := by
  simp [PreCall, Call.beforeConnect, hdel]

theorem connectTarget_cases (env : Env) (inst : Recording) (jfr : FlightRecorder)
    (targetSvc : Service) (calls : List Call) (hpre : ∀ c ∈ calls, PreCall inst c)
    (peeked : Prop) :
    EarlyOrConnected env inst (connectTarget env inst jfr targetSvc calls) peeked := by
  unfold connectTarget
  cases hcn : env.ConnectToService targetSvc jfr.Port with
  | some e =>
    left
    refine ⟨⟨?_, ?_, ?_, ⟨inst.Finalizers, rfl⟩, ⟨inst.Finalizers, rfl⟩⟩, by simp [failWith]⟩
    · intro c hc
      simp only [failWith, List.mem_append, List.mem_cons, List.mem_singleton,
        List.not_mem_nil, or_false] at hc
      rcases hc with hc | hc | hc | hc
      · exact (hpre c hc).1
      all_goals subst hc; rfl
    · intro svc port hc
      simp only [failWith, List.mem_append, List.mem_cons, List.mem_singleton,
        List.not_mem_nil, or_false] at hc
      rcases hc with hc | hc | hc | hc
      · exact absurd rfl ((hpre _ hc).2.1 svc port)
      · cases hc
      · cases hc; rw [hcn]; simp
      · cases hc
    · intro hnd
      refine ⟨?_, rfl, rfl⟩
      intro c hc
      simp only [failWith, List.mem_append, List.mem_cons, List.mem_singleton,
        List.not_mem_nil, or_false] at hc
      rcases hc with hc | hc | hc | hc
      · exact (hpre _ hc).2.2 hnd
      all_goals subst hc; rfl
  | none =>
    right
    exact ⟨calls, targetSvc, jfr.Port, hcn, rfl, hpre⟩

theorem removeOrConnect_cases (env : Env) (inst : Recording) (jfr : FlightRecorder)
    (targetSvc : Service) (calls : List Call) (hpre : ∀ c ∈ calls, PreCall inst c)
    (endpoints : Endpoints) (hdel : deleting inst) (peeked : Prop) :
    EarlyOrConnected env inst (removeOrConnect env inst jfr targetSvc calls endpoints) peeked := by
  unfold removeOrConnect
  split
  · left
    have hmem : recordingFinalizer ∈ inst.Finalizers := (hasRecordingFinalizer_iff inst).1 hdel.2
    obtain ⟨_, herr, hst⟩ := removeRecordingFinalizer_of_mem env inst inst hmem
    refine ⟨early_of_remove env inst _ calls hdel hpre ?_ ?_ ?_, ?_⟩
    · dsimp only; split <;> rfl
    · dsimp only; split <;> rfl
    · dsimp only; split <;> rfl
    · intro hnone
      right
      refine ⟨hdel, ?_⟩
      dsimp only at hnone ⊢
      cases hr : (removeRecordingFinalizer env inst inst).err with
      | some e => simp [hr, failWith] at hnone
      | none =>
        simp only [hr]
        rw [hst, ← herr, hr]
        rfl
  · exact connectTarget_cases env inst jfr targetSvc calls hpre peeked

/-- Every outcome of `reconcileTarget`: the invocation ends early (without error only when
no target is reported yet or a deletion is under way), or the target is connected. -/
theorem reconcileTarget_cases (env : Env) (inst : Recording) (jfr : FlightRecorder) :
    EarlyOrConnected env inst (reconcileTarget env inst jfr) (jfr.Target = none) := by
  unfold reconcileTarget
  cases ht : jfr.Target with
  | none =>
    left
    exact ⟨early_of_untouched env inst _ [] (by simp) rfl rfl rfl, fun _ => Or.inl rfl⟩
  | some targetRef =>
    dsimp only
    have hgs : ∀ c ∈ [Call.GetService targetRef.Namespace targetRef.Name], PreCall inst c := by
      intro c hc; simp at hc; subst hc; exact preCall_getService inst _ _
    cases hs : env.GetService targetRef.Namespace targetRef.Name with
    | error e =>
      left
      exact ⟨early_of_untouched env inst _ _ hgs rfl rfl rfl, by simp [failWith]⟩
    | ok targetSvc =>
      dsimp only
      split
      · rename_i hdf
        have hdf2 : deleting inst := by
          simpa [deleting] using hdf
        have hge : ∀ c ∈ [Call.GetService targetRef.Namespace targetRef.Name] ++
            [Call.GetEndpoints targetRef.Namespace targetRef.Name], PreCall inst c := by
          intro c hc
          simp at hc
          rcases hc with hc | hc <;> subst hc
          · exact preCall_getService inst _ _
          · exact preCall_getEndpoints inst _ _ hdf2
        cases he : env.GetEndpoints targetRef.Namespace targetRef.Name with
        | error e =>
          dsimp only
          split
          · left
            exact ⟨early_of_untouched env inst _ _ hge rfl rfl rfl, by simp [failWith]⟩
          · exact removeOrConnect_cases env inst jfr targetSvc _ hge _ hdf2 _
        | ok eps => exact removeOrConnect_cases env inst jfr targetSvc _ hge _ hdf2 _
      · exact connectTarget_cases env inst jfr targetSvc _ hgs _

theorem earlyOrConnected_after {env : Env} {inst : Recording} {o : Outcome} {peeked : Prop}
    (h : EarlyOrConnected env inst o peeked) (calls : List Call)
    (hcalls : ∀ c ∈ calls, PreCall inst c) :
    EarlyOrConnected env inst (o.after calls) peeked := by
  rcases h with ⟨he, hp⟩ | ⟨pre, svc, port, hcn, ho, hpre⟩
  · left
    exact ⟨early_after he calls hcalls, hp⟩
  · right
    refine ⟨calls ++ pre, svc, port, hcn, ?_, ?_⟩
    · rw [ho]
      simp [Outcome.after, Outcome.deferred]
    · intro c hc
      rw [List.mem_append] at hc
      rcases hc with hc | hc
      · exact hcalls c hc
      · exact hpre c hc

theorem getFlightRecorder_calls (env : Env) (recording : Recording) (c : Call)
    (hc : c ∈ (getFlightRecorder env recording).2) : ∃ ns name, c = Call.GetFlightRecorder ns name := by
  unfold getFlightRecorder at hc
  cases hr : recording.Spec.FlightRecorder with
  | none => simp [hr] at hc
  | some ref =>
    simp only [hr] at hc
    split at hc
    · simp at hc
    · cases hg : env.GetFlightRecorder recording.Namespace ref with
      | ok jfr => simp [hg] at hc; exact ⟨_, _, hc⟩
      | error e =>
        simp only [hg] at hc
        split at hc <;> simp at hc <;> exact ⟨_, _, hc⟩

theorem findDownloadURL_calls (env : Env) (filename : String) (c : Call)
    (hc : c ∈ (findDownloadURL env filename).2) :
    c = Call.ListSavedRecordings ∨ c = Call.CloseClient := by
  unfold findDownloadURL at hc
  cases h : env.ListSavedRecordings <;> simp [h] at hc <;> tauto

theorem deleteSavedRecording_calls (env : Env) (recording : Recording) (c : Call)
    (hc : c ∈ (deleteSavedRecording env recording).2) :
    c = Call.ListSavedRecordings ∨ c = Call.CloseClient ∨ ∃ file, c = Call.DeleteSavedRecording file := by
  unfold deleteSavedRecording at hc
  cases hd : recording.Status.DownloadURL with
  | none => simp [hd] at hc
  | some url =>
    simp only [hd] at hc
    cases hu : env.urlPath url with
    | error e => simp [hu] at hc
    | ok path =>
      simp only [hu] at hc
      rcases hf : findDownloadURL env (env.pathBase path) with ⟨r, calls⟩
      have hfc := fun c => findDownloadURL_calls env (env.pathBase path) c
      rw [hf] at hfc hc
      rcases r with e | (_ | found)
      · dsimp only at hc
        rcases hfc c hc with h | h <;> simp [h]
      · dsimp only at hc
        rcases hfc c hc with h | h <;> simp [h]
      · dsimp only at hc
        cases hdel : env.DeleteSavedRecording (env.pathBase path) <;>
          simp only [hdel, List.mem_append, List.mem_cons, List.mem_singleton,
            List.not_mem_nil, or_false] at hc
        · rcases hc with hc | hc
          · rcases hfc c hc with h | h <;> simp [h]
          · simp [hc]
        · rcases hc with hc | hc | hc
          · rcases hfc c hc with h | h <;> simp [h]
          · simp [hc]
          · simp [hc]

/-- Every outcome of `reconcileInstance`. -/
theorem reconcileInstance_cases (env : Env) (inst : Recording) :
    EarlyOrConnected env inst (reconcileInstance env inst)
      ((getFlightRecorder env inst).1 = .ok none ∨
        ∃ jfr, (getFlightRecorder env inst).1 = .ok (some jfr) ∧ jfr.Target = none) := by
  unfold reconcileInstance
  have hgf : ∀ c ∈ (getFlightRecorder env inst).2, PreCall inst c := by
    intro c hc
    obtain ⟨ns, name, h⟩ := getFlightRecorder_calls env inst c hc
    subst h
    simp [PreCall, Call.beforeConnect, Call.isSetup]
  generalize hdel : (if (decide (inst.DeletionTimestamp ≠ none) && hasRecordingFinalizer inst) = true
      then deleteSavedRecording env inst else (none, [])) = delSaved
  have hcalls : ∀ c ∈ delSaved.2, PreCall inst c := by
    intro c hc
    rw [← hdel] at hc
    split at hc
    · rename_i hdf
      have hdf2 : deleting inst := by simpa [deleting] using hdf
      rcases deleteSavedRecording_calls env inst c hc with h | h | ⟨f, h⟩ <;> subst h <;>
        simp [PreCall, Call.beforeConnect, hdf2]
    · simp at hc
  rcases delSaved with ⟨r, calls⟩
  cases r with
  | some e =>
    left
    exact ⟨early_of_untouched env inst _ _ hcalls rfl rfl rfl, by simp [failWith]⟩
  | none =>
    dsimp only
    rcases hg : getFlightRecorder env inst with ⟨r2, calls2⟩
    rw [hg] at hgf
    have hboth : ∀ c ∈ calls ++ calls2, PreCall inst c := by
      intro c hc
      rw [List.mem_append] at hc
      rcases hc with hc | hc
      · exact hcalls c hc
      · exact hgf c hc
    rcases r2 with e | (_ | jfr)
    · left
      exact ⟨early_of_untouched env inst _ _ hboth rfl rfl rfl, by simp [failWith]⟩
    · left
      dsimp only
      split
      · rename_i hdf
        have hdf2 : deleting inst := by simpa [deleting] using hdf
        exact ⟨early_of_remove env inst _ (calls ++ calls2) hdf2 hboth rfl rfl rfl,
          fun _ => Or.inl (Or.inl rfl)⟩
      · exact ⟨early_of_untouched env inst _ _ hboth rfl rfl rfl, fun _ => Or.inl (Or.inl rfl)⟩
    · rcases earlyOrConnected_after (reconcileTarget_cases env inst jfr) _ hboth with ⟨hE, hp⟩ | hC
      · left
        refine ⟨hE, fun hnone => ?_⟩
        rcases hp hnone with h | h
        · exact Or.inl (Or.inr ⟨jfr, rfl, h⟩)
        · exact Or.inr h
      · exact Or.inr hC

/-- Every outcome of `Reconcile`: the Recording is never fetched, or it is fetched and the
invocation ends early or connects to the target. -/
theorem Reconcile_cases (env : Env) (jfrClient : Bool) (request : Request) :
    ((Reconcile env jfrClient request).inst = none ∧
        (Reconcile env jfrClient request).stored = none ∧
        ((Reconcile env jfrClient request).err = none →
          (Reconcile env jfrClient request).result = {}) ∧
        (∀ inst, env.GetRecording request.Namespace request.Name = .ok inst →
          (Reconcile env jfrClient request).err ≠ none) ∧
        ∀ c ∈ (Reconcile env jfrClient request).trace,
          (∃ ns, c = Call.FindContainerJFR ns) ∨ (∃ ns name, c = Call.ConnectToContainerJFR ns name) ∨
            ∃ ns name, c = Call.GetRecording ns name) ∨
      ∃ inst, env.GetRecording request.Namespace request.Name = .ok inst ∧
        EarlyOrConnected env inst (Reconcile env jfrClient request)
          ((getFlightRecorder env inst).1 = .ok none ∨
            ∃ jfr, (getFlightRecorder env inst).1 = .ok (some jfr) ∧ jfr.Target = none) := by
  unfold Reconcile
  cases hf : env.FindContainerJFR request.Namespace with
  | error e => left; simp [failWith]
  | ok cjfr =>
    dsimp only
    have key : ∀ (o : Outcome) (calls : List Call),
        (∀ c ∈ calls, (∃ ns, c = Call.FindContainerJFR ns) ∨
          ∃ ns name, c = Call.ConnectToContainerJFR ns name) →
        (((match env.GetRecording request.Namespace request.Name with
            | .error err =>
              if IsNotFound err then
                (⟨{}, none, none, none,
                  calls ++ [Call.GetRecording request.Namespace request.Name]⟩ : Outcome)
              else failWith err none none
                (calls ++ [Call.GetRecording request.Namespace request.Name])
            | .ok inst =>
              (reconcileInstance env inst).after
                (calls ++ [Call.GetRecording request.Namespace request.Name])) = o) →
          ((o.inst = none ∧ o.stored = none ∧ (o.err = none → o.result = {}) ∧
            (∀ inst, env.GetRecording request.Namespace request.Name = .ok inst → o.err ≠ none) ∧
            ∀ c ∈ o.trace,
              (∃ ns, c = Call.FindContainerJFR ns) ∨
                (∃ ns name, c = Call.ConnectToContainerJFR ns name) ∨
                ∃ ns name, c = Call.GetRecording ns name) ∨
          ∃ inst, env.GetRecording request.Namespace request.Name = .ok inst ∧
            EarlyOrConnected env inst o
              ((getFlightRecorder env inst).1 = .ok none ∨
                ∃ jfr, (getFlightRecorder env inst).1 = .ok (some jfr) ∧ jfr.Target = none))) := by
      intro o calls hcalls ho
      subst ho
      cases hg : env.GetRecording request.Namespace request.Name with
      | error e =>
        left
        dsimp only
        split
        · refine ⟨rfl, rfl, fun _ => rfl, by simp, ?_⟩
          intro c hc
          simp only [List.mem_append, List.mem_singleton] at hc
          rcases hc with hc | hc
          · rcases hcalls c hc with h | h
            · exact Or.inl h
            · exact Or.inr (Or.inl h)
          · exact Or.inr (Or.inr ⟨_, _, hc⟩)
        · refine ⟨rfl, rfl, by simp [failWith], by simp, ?_⟩
          intro c hc
          simp only [failWith, List.mem_append, List.mem_singleton] at hc
          rcases hc with hc | hc
          · rcases hcalls c hc with h | h
            · exact Or.inl h
            · exact Or.inr (Or.inl h)
          · exact Or.inr (Or.inr ⟨_, _, hc⟩)
      | ok inst =>
        right
        refine ⟨inst, rfl, earlyOrConnected_after (reconcileInstance_cases env inst) _ ?_⟩
        intro c hc
        simp only [List.mem_append, List.mem_singleton] at hc
        rcases hc with hc | hc
        · rcases hcalls c hc with ⟨ns, h⟩ | ⟨ns, name, h⟩ <;> subst h <;>
            simp [PreCall, Call.beforeConnect, Call.isSetup]
        · subst hc; simp [PreCall, Call.beforeConnect, Call.isSetup]
    cases jfrClient with
    | true =>
      simp only [if_true]
      refine key _ _ ?_ rfl
      intro c hc
      simp at hc
      exact Or.inl ⟨_, hc⟩
    | false =>
      simp only [Bool.false_eq_true, if_false]
      cases hc : env.ConnectToContainerJFR cjfr.Namespace cjfr.Name with
      | some e =>
        left
        simp [failWith]
      | none =>
        dsimp only
        refine key _ _ ?_ rfl
        intro c hc
        simp at hc
        rcases hc with hc | hc
        · exact Or.inl ⟨_, hc⟩
        · exact Or.inr ⟨_, _, hc⟩

/-! ### The part of `Reconcile` that runs once the target is connected -/

/-- Every outcome of `createOrStop`: the call of the step succeeds (or none is made) and
`syncStatus` follows, or the call fails and the invocation ends. -/
theorem createOrStop_cases (env : Env) (inst stored : Recording) :
    createOrStop env inst stored = (syncStatus env inst stored).after (createOrStopCalls env inst) ∨
      ∃ e, createOrStop env inst stored =
        failWith e (some inst) (some stored) (createOrStopCalls env inst ++ [Call.CloseClient]) := by
  unfold createOrStop createOrStopCalls
  cases hst : inst.Status.State with
  | none =>
    dsimp only
    split
    · cases h : env.StartRecording inst.Spec.Name inst.Spec.EventOptions with
      | none => left; rfl
      | some e => right; exact ⟨e, rfl⟩
    · cases h : env.DumpRecording inst.Spec.Name (env.seconds inst.Spec.Duration)
          inst.Spec.EventOptions with
      | none => left; rfl
      | some e => right; exact ⟨e, rfl⟩
  | some st =>
    dsimp only
    split
    · cases h : env.StopRecording inst.Spec.Name with
      | none => left; rfl
      | some e => right; exact ⟨e, rfl⟩
    · left
      simp [Outcome.after]

theorem tail_of_plain (env : Env) (url : Option String) (o : Outcome)
    (hcalls : ∀ c ∈ o.trace, c.plain = true)
    (hinst : ∃ i, o.inst = some i ∧ ∀ u, url = some u → i.Status.DownloadURL = some u)
    (hstored : ∃ i, o.stored = some i ∧ ∀ u, url = some u → i.Status.DownloadURL = some u) :
    Tail env url o := by
  refine ⟨?_, ?_, hinst, hstored⟩
  · intro r hr
    have := hcalls _ hr
    simp [Call.plain] at this
  · intro c hc h
    have := hcalls _ hc
    rcases h with ⟨n, h⟩ | h <;> subst h <;> simp [Call.plain] at this

theorem tail_after {env : Env} {url : Option String} {o : Outcome} (h : Tail env url o)
    (pre : List Call) (hpre : ∀ c ∈ pre, c.plain = true) : Tail env url (o.after pre) := by
  refine ⟨?_, ?_, h.inst_url, h.stored_url⟩
  · intro r hr
    simp only [Outcome.after_trace, List.mem_append] at hr
    rcases hr with hr | hr
    · have := hpre _ hr
      simp [Call.plain] at this
    · exact h.statusWrite r hr
  · intro c hc hk
    simp only [Outcome.after_trace, List.mem_append] at hc
    rcases hc with hc | hc
    · have := hpre _ hc
      rcases hk with ⟨n, hk⟩ | hk <;> subst hk <;> simp [Call.plain] at this
    · exact h.save c hc hk

theorem stateIsStopped_eq (inst : Recording) :
    stateIsStopped inst = decide (inst.Status.State = some RecordingStateStopped) := by
  unfold stateIsStopped
  cases h : inst.Status.State <;> simp

theorem syncStatus_tail (env : Env) (inst stored : Recording)
    (hstored : stored.Status.DownloadURL = inst.Status.DownloadURL) :
    Tail env inst.Status.DownloadURL (syncStatus env inst stored) := by
  rcases syncStatus_cases env inst stored with
    ⟨e, calls, ho, hcalls⟩ | ⟨e, calls, inst1, ho, ⟨ds, hds, hp⟩, hnone, hcalls⟩ |
    ⟨calls, inst1, inst2, ho, ⟨ds, hds, hp⟩, ⟨url, hurl, hkeep⟩, hcalls⟩
  · rw [ho]
    refine tail_of_plain env _ _ ?_ ⟨inst, rfl, fun u hu => hu⟩ ⟨stored, rfl, fun u hu => hstored ▸ hu⟩
    intro c hc
    rcases hcalls c hc with h | h <;> subst h <;> rfl
  · rw [ho]
    refine ⟨?_, fun _ _ _ => hnone, ⟨inst1, rfl, ?_⟩, ⟨stored, rfl, ?_⟩⟩
    · intro r hr
      rcases hcalls _ hr with h | h | h | h <;> cases h
    · intro u hu; rw [hnone] at hu; cases hu
    · intro u hu; rw [hnone] at hu; cases hu
  · obtain ⟨st, hst, hsturl⟩ := projectStatus_ok inst _ inst1 hp
    have h1url : inst1.Status.DownloadURL = inst.Status.DownloadURL := by rw [hst]; exact hsturl
    have h2url : inst2.Status.DownloadURL = url := by rw [hurl]
    have h2state : inst2.Status.State = inst1.Status.State := by rw [hurl]
    rw [ho]
    rcases updateStatus_cases env inst2 stored (stateIsStopped inst1) with
      ⟨e, hu, hupd⟩ | ⟨hu, hupd⟩
    · rw [hupd]
      refine ⟨?_, ?_, ⟨inst2, rfl, ?_⟩, ⟨stored, rfl, ?_⟩⟩
      · intro r hr hok
        simp only [Outcome.after_trace, failWith, List.mem_append, List.mem_singleton] at hr
        rcases hr with hr | hr
        · rcases hcalls _ hr with h | ⟨_, h | h⟩ <;> cases h
        · cases hr
          rw [hu] at hok
          cases hok
      · intro c hc hk
        simp only [Outcome.after_trace, failWith, List.mem_append, List.mem_singleton] at hc
        rcases hc with hc | hc
        · rcases hcalls _ hc with h | ⟨hn, _⟩
          · subst h
            rcases hk with ⟨n, hk⟩ | hk <;> cases hk
          · exact hn
        · subst hc
          rcases hk with ⟨n, hk⟩ | hk <;> cases hk
      · intro u hu2
        rw [h2url]
        exact hkeep u (h1url ▸ hu2)
      · intro u hu2
        rw [hstored]; exact hu2
    · rw [hupd]
      refine ⟨?_, ?_, ⟨inst2, rfl, ?_⟩, ⟨inst2, rfl, ?_⟩⟩
      · intro r hr _
        simp only [Outcome.after_trace, List.mem_append, List.mem_singleton] at hr
        rcases hr with hr | hr
        · rcases hcalls _ hr with h | ⟨_, h | h⟩ <;> cases h
        · cases hr
          refine ⟨rfl, rfl, rfl, ?_⟩
          simp only [Outcome.after_result, stateIsStopped_eq, h2state]
          by_cases hs : inst1.Status.State = some RecordingStateStopped <;> simp [hs]
      · intro c hc hk
        simp only [Outcome.after_trace, List.mem_append, List.mem_singleton] at hc
        rcases hc with hc | hc
        · rcases hcalls _ hc with h | ⟨hn, _⟩
          · subst h
            rcases hk with ⟨n, hk⟩ | hk <;> cases hk
          · exact hn
        · subst hc
          rcases hk with ⟨n, hk⟩ | hk <;> cases hk
      · intro u hu2
        rw [h2url]
        exact hkeep u (h1url ▸ hu2)
      · intro u hu2
        rw [h2url]
        exact hkeep u (h1url ▸ hu2)

theorem updateStatus_trace (env : Env) (inst stored : Recording) (b : Bool) :
    (updateStatus env inst stored b).trace = [Call.StatusUpdate inst] := by
  rcases updateStatus_cases env inst stored b with ⟨e, _, h⟩ | ⟨_, h⟩
  · rw [h]; rfl
  · rw [h]

theorem syncStatus_trace (env : Env) (inst stored : Recording) :
    ∀ c ∈ (syncStatus env inst stored).trace, c.isSync = true := by
  intro c hc
  rcases syncStatus_cases env inst stored with
    ⟨e, calls, ho, hcalls⟩ | ⟨e, calls, inst1, ho, _, _, hcalls⟩ |
    ⟨calls, inst1, inst2, ho, _, _, hcalls⟩
  · rw [ho] at hc
    rcases hcalls c hc with h | h <;> subst h <;> rfl
  · rw [ho] at hc
    rcases hcalls c hc with h | h | h | h <;> subst h <;> rfl
  · rw [ho, Outcome.after_trace, updateStatus_trace, List.mem_append, List.mem_singleton] at hc
    rcases hc with hc | hc
    · rcases hcalls c hc with h | ⟨_, h | h⟩ <;> subst h <;> rfl
    · subst hc; rfl

theorem createOrStopCalls_plain (env : Env) (inst : Recording) :
    ∀ c ∈ createOrStopCalls env inst, c.plain = true := by
  intro c hc
  unfold createOrStopCalls at hc
  cases hst : inst.Status.State with
  | none =>
    simp only [hst] at hc
    split at hc <;> simp at hc <;> subst hc <;> rfl
  | some st =>
    simp only [hst] at hc
    split at hc <;> simp at hc
    subst hc; rfl

theorem createOrStop_tail (env : Env) (inst stored : Recording)
    (hstored : stored.Status.DownloadURL = inst.Status.DownloadURL) :
    Tail env inst.Status.DownloadURL (createOrStop env inst stored) := by
  rcases createOrStop_cases env inst stored with h | ⟨e, h⟩
  · rw [h]
    exact tail_after (syncStatus_tail env inst stored hstored) _ (createOrStopCalls_plain env inst)
  · rw [h]
    refine tail_of_plain env _ _ ?_ ⟨inst, rfl, fun u hu => hu⟩ ⟨stored, rfl, fun u hu => hstored ▸ hu⟩
    intro c hc
    simp only [failWith, List.mem_append, List.mem_singleton] at hc
    rcases hc with hc | hc
    · exact createOrStopCalls_plain env inst c hc
    · subst hc; rfl

/-- Every outcome of `reconcileConnected` for a Recording that is not being deleted. -/
theorem reconcileConnected_live (env : Env) (inst : Recording)
    (hlive : inst.DeletionTimestamp = none) :
    (hasRecordingFinalizer inst = true ∧
        reconcileConnected env inst = createOrStop env inst inst) ∨
      (hasRecordingFinalizer inst = false ∧ ∃ e, env.Update (withFinalizer inst) = some e ∧
        reconcileConnected env inst =
          failWith e (some (withFinalizer inst)) (some inst) [Call.Update (withFinalizer inst)]) ∨
      (hasRecordingFinalizer inst = false ∧ env.Update (withFinalizer inst) = none ∧
        reconcileConnected env inst =
          (createOrStop env (withFinalizer inst) (withFinalizer inst)).after
            [Call.Update (withFinalizer inst)]) := by
  have hne : ¬ (inst.DeletionTimestamp ≠ none) := by simp [hlive]
  cases hf : hasRecordingFinalizer inst with
  | true =>
    left
    refine ⟨rfl, ?_⟩
    unfold reconcileConnected
    rw [if_neg hne, hf]
    rfl
  | false =>
    right
    cases hu : env.Update (withFinalizer inst) with
    | some e =>
      left
      refine ⟨rfl, e, rfl, ?_⟩
      unfold reconcileConnected
      rw [if_neg hne, hf]
      have hadd : addRecordingFinalizer env inst inst =
          ⟨some e, withFinalizer inst, inst, [Call.Update (withFinalizer inst)]⟩ := by
        unfold addRecordingFinalizer
        unfold withFinalizer at hu
        simp only [hu]
        rfl
      simp [hadd]
    | none =>
      right
      refine ⟨rfl, rfl, ?_⟩
      unfold reconcileConnected
      rw [if_neg hne, hf]
      have hadd : addRecordingFinalizer env inst inst =
          ⟨none, withFinalizer inst, withFinalizer inst, [Call.Update (withFinalizer inst)]⟩ := by
        unfold addRecordingFinalizer
        unfold withFinalizer at hu
        simp only [hu]
        rfl
      simp [hadd]

/-- Every outcome of `reconcileConnected` for a Recording that is being deleted. -/
theorem reconcileConnected_deleted (env : Env) (inst : Recording)
    (hdel : inst.DeletionTimestamp ≠ none) :
    (hasRecordingFinalizer inst = false ∧
        reconcileConnected env inst = ⟨{}, none, some inst, some inst, []⟩) ∨
      (hasRecordingFinalizer inst = true ∧
        reconcileConnected env inst =
          ⟨{}, (removeRecordingFinalizer env inst inst).err,
            some (removeRecordingFinalizer env inst inst).recording,
            some (removeRecordingFinalizer env inst inst).stored,
            (deleteRecording env inst).2 ++ (removeRecordingFinalizer env inst inst).calls⟩) := by
  cases hf : hasRecordingFinalizer inst with
  | false =>
    left
    refine ⟨rfl, ?_⟩
    unfold reconcileConnected
    rw [if_pos hdel, hf]
    rfl
  | true =>
    right
    refine ⟨rfl, ?_⟩
    unfold reconcileConnected
    rw [if_pos hdel, hf]
    simp only [if_true]
    cases hr : (removeRecordingFinalizer env inst inst).err <;> rfl

theorem deleteRecording_calls (env : Env) (recording : Recording) (c : Call)
    (hc : c ∈ (deleteRecording env recording).2) :
    c = Call.ListRecordings ∨ c = Call.CloseClient ∨ c = Call.DeleteRecording recording.Spec.Name := by
  unfold deleteRecording at hc
  rcases hf : findRecordingByName env recording.Spec.Name with ⟨r, calls⟩
  have hfc := fun c => findRecordingByName_calls env recording.Spec.Name c
  rw [hf] at hfc
  simp only [hf] at hc
  rcases r with e | (_ | found)
  · dsimp only at hc
    rcases hfc c hc with h | h <;> simp [h]
  · dsimp only at hc
    rcases hfc c hc with h | h <;> simp [h]
  · dsimp only at hc
    cases hdel : env.DeleteRecording recording.Spec.Name <;>
      simp only [hdel, List.mem_append, List.mem_cons, List.mem_singleton,
        List.not_mem_nil, or_false] at hc
    · rcases hc with hc | hc
      · rcases hfc c hc with h | h <;> simp [h]
      · simp [hc]
    · rcases hc with hc | hc | hc
      · rcases hfc c hc with h | h <;> simp [h]
      · simp [hc]
      · simp [hc]

theorem reconcileConnected_tail (env : Env) (inst : Recording) :
    Tail env inst.Status.DownloadURL (reconcileConnected env inst) := by
  by_cases hlive : inst.DeletionTimestamp = none
  · rcases reconcileConnected_live env inst hlive with
      ⟨_, h⟩ | ⟨_, e, _, h⟩ | ⟨_, _, h⟩
    · rw [h]; exact createOrStop_tail env inst inst rfl
    · rw [h]
      refine tail_of_plain env _ _ ?_ ⟨_, rfl, fun u hu => hu⟩ ⟨_, rfl, fun u hu => hu⟩
      intro c hc
      simp only [failWith, List.mem_singleton] at hc
      subst hc; rfl
    · rw [h]
      refine tail_after (createOrStop_tail env (withFinalizer inst) (withFinalizer inst) rfl) _ ?_
      intro c hc
      simp only [List.mem_singleton] at hc
      subst hc; rfl
  · rcases reconcileConnected_deleted env inst hlive with ⟨_, h⟩ | ⟨_, h⟩
    · rw [h]
      exact tail_of_plain env _ _ (by simp) ⟨_, rfl, fun u hu => hu⟩ ⟨_, rfl, fun u hu => hu⟩
    · rw [h]
      refine tail_of_plain env _ _ ?_ ⟨_, rfl, ?_⟩ ⟨_, rfl, ?_⟩
      · intro c hc
        simp only [List.mem_append] at hc
        rcases hc with hc | hc
        · rcases deleteRecording_calls env inst c hc with h | h | h <;> subst h <;> rfl
        · rw [removeRecordingFinalizer_calls env inst inst c hc]; rfl
      · intro u hu
        rw [removeRecordingFinalizer_recording]
        exact hu
      · intro u hu
        rcases removeRecordingFinalizer_stored env inst with h | h <;> rw [h] <;> exact hu

/-- What the calls made around `reconcileConnected` are: the calls of `pre`, `Lock` and
`ConnectToService` before it, `DisconnectClient` and `Unlock` after it. -/
theorem mem_connected_trace (env : Env) (inst : Recording) (pre : List Call) (svc : Service)
    (port : Int) (c : Call) :
    c ∈ (((reconcileConnected env inst).after
          (pre ++ [Call.Lock, Call.ConnectToService svc port])).deferred
          [Call.DisconnectClient, Call.Unlock]).trace ↔
      c ∈ pre ∨ c = Call.Lock ∨ c = Call.ConnectToService svc port ∨
        c ∈ (reconcileConnected env inst).trace ∨ c = Call.DisconnectClient ∨ c = Call.Unlock := by
  simp only [Outcome.deferred_trace, Outcome.after_trace, List.mem_append, List.mem_cons,
    List.mem_singleton, List.not_mem_nil, or_false]
  tauto

theorem mem_createOrStopCalls_stop (env : Env) (inst : Recording) (n : String) :
    Call.StopRecording n ∈ createOrStopCalls env inst ↔
      n = inst.Spec.Name ∧ shouldStopRecording inst = true := by
  unfold createOrStopCalls
  cases hst : inst.Status.State with
  | none =>
    have hns : shouldStopRecording inst = false := by
      unfold shouldStopRecording; rw [hst]; cases inst.Spec.State <;> rfl
    by_cases hd : inst.Spec.Duration = 0 <;> simp [hd, hns]
  | some st =>
    by_cases hs : shouldStopRecording inst = true
    · simp [hs]
    · simp [hs]

theorem mem_createOrStopCalls_start (env : Env) (inst : Recording) (n : String)
    (opts : List String) :
    Call.StartRecording n opts ∈ createOrStopCalls env inst ↔
      n = inst.Spec.Name ∧ opts = inst.Spec.EventOptions ∧ inst.Status.State = none ∧
        inst.Spec.Duration = 0 := by
  unfold createOrStopCalls
  cases hst : inst.Status.State with
  | none => by_cases hd : inst.Spec.Duration = 0 <;> simp [hd]
  | some st => by_cases hs : shouldStopRecording inst = true <;> simp [hs]

theorem mem_createOrStopCalls_dump (env : Env) (inst : Recording) (n : String) (secs : Int)
    (opts : List String) :
    Call.DumpRecording n secs opts ∈ createOrStopCalls env inst ↔
      n = inst.Spec.Name ∧ secs = env.seconds inst.Spec.Duration ∧
        opts = inst.Spec.EventOptions ∧ inst.Status.State = none ∧ inst.Spec.Duration ≠ 0 := by
  unfold createOrStopCalls
  cases hst : inst.Status.State with
  | none => by_cases hd : inst.Spec.Duration = 0 <;> simp [hd]
  | some st => by_cases hs : shouldStopRecording inst = true <;> simp [hs]

/-- The trace of an invocation that carries the Recording `inst` to the create-or-stop
step: calls of the early kind, then the calls of the step, then calls of `syncStatus` and
the deferred calls. -/
theorem Reconcile_live_trace (env : Env) (jfrClient : Bool) (request : Request)
    (inst : Recording) (svc : Service) (port : Int)
    (hget : env.GetRecording request.Namespace request.Name = .ok inst)
    (hlive : inst.DeletionTimestamp = none)
    (hconn : Call.ConnectToService svc port ∈ (Reconcile env jfrClient request).trace)
    (hok : env.ConnectToService svc port = none)
    (hfin : hasRecordingFinalizer inst = false → env.Update (withFinalizer inst) = none) :
    ∃ pre post, (Reconcile env jfrClient request).trace = pre ++ createOrStopCalls env inst ++ post ∧
      (∀ c ∈ pre, c.beforeConnect = true) ∧
      (∀ c ∈ post, c.isSync = true ∨ c.isSetup = true) := by
  rcases Reconcile_cases env jfrClient request with
    ⟨_, _, _, _, hcalls⟩ | ⟨inst', hget', ⟨hE, _⟩ | ⟨pre, svc', port', _, ho, hpre⟩⟩
  · rcases hcalls _ hconn with ⟨_, h⟩ | ⟨_, _, h⟩ | ⟨_, _, h⟩ <;> cases h
  · exact absurd hok (hE.connect svc port hconn)
  · rw [hget] at hget'
    cases hget'
    have hpre2 : ∀ c ∈ pre ++ [Call.Lock, Call.ConnectToService svc' port'],
        c.beforeConnect = true := by
      intro c hc
      simp only [List.mem_append, List.mem_cons, List.mem_singleton, List.not_mem_nil,
        or_false] at hc
      rcases hc with hc | hc | hc
      · exact (hpre c hc).1
      · subst hc; rfl
      · subst hc; rfl
    have hpost : ∀ (tail : List Call), (∀ c ∈ tail, c.isSync = true) →
        ∀ c ∈ tail ++ [Call.DisconnectClient, Call.Unlock],
          c.isSync = true ∨ c.isSetup = true := by
      intro tail ht c hc
      simp only [List.mem_append, List.mem_cons, List.mem_singleton, List.not_mem_nil,
        or_false] at hc
      rcases hc with hc | hc | hc
      · exact Or.inl (ht c hc)
      · subst hc; exact Or.inr rfl
      · subst hc; exact Or.inr rfl
    have hcos : ∀ (i s : Recording), createOrStopCalls env i = createOrStopCalls env inst →
        ∃ tail, (createOrStop env i s).trace = createOrStopCalls env inst ++ tail ∧
          ∀ c ∈ tail, c.isSync = true := by
      intro i s hi
      rcases createOrStop_cases env i s with h | ⟨e, h⟩
      · exact ⟨(syncStatus env i s).trace, by rw [h, Outcome.after_trace, hi],
          syncStatus_trace env i s⟩
      · refine ⟨[Call.CloseClient], by rw [h, hi]; rfl, ?_⟩
        intro c hc
        simp only [List.mem_singleton] at hc
        subst hc; rfl
    rw [ho]
    rcases reconcileConnected_live env inst hlive with
      ⟨_, h⟩ | ⟨hf, e, hu, _⟩ | ⟨_, _, h⟩
    · obtain ⟨tail, htail, hsync⟩ := hcos inst inst rfl
      refine ⟨pre ++ [Call.Lock, Call.ConnectToService svc' port'],
        tail ++ [Call.DisconnectClient, Call.Unlock], ?_, hpre2, hpost tail hsync⟩
      rw [h, Outcome.deferred_trace, Outcome.after_trace, htail]
      simp only [List.append_assoc]
    · rw [hfin hf] at hu
      cases hu
    · obtain ⟨tail, htail, hsync⟩ := hcos (withFinalizer inst) (withFinalizer inst) rfl
      refine ⟨pre ++ [Call.Lock, Call.ConnectToService svc' port'] ++
          [Call.Update (withFinalizer inst)],
        tail ++ [Call.DisconnectClient, Call.Unlock], ?_, ?_, hpost tail hsync⟩
      · rw [h, Outcome.deferred_trace, Outcome.after_trace, Outcome.after_trace, htail]
        simp only [List.append_assoc]
      · intro c hc
        rw [List.mem_append] at hc
        rcases hc with hc | hc
        · exact hpre2 c hc
        · simp only [List.mem_singleton] at hc
          subst hc; rfl

theorem syncStatus_finalizers (env : Env) (inst stored : Recording)
    (hstored : stored.Finalizers = inst.Finalizers) :
    ∃ i s, (syncStatus env inst stored).inst = some i ∧ (syncStatus env inst stored).stored = some s ∧
      i.Finalizers = inst.Finalizers ∧ s.Finalizers = inst.Finalizers := by
  rcases syncStatus_cases env inst stored with
    ⟨e, calls, ho, _⟩ | ⟨e, calls, inst1, ho, ⟨ds, _, hp⟩, _, _⟩ |
    ⟨calls, inst1, inst2, ho, ⟨ds, _, hp⟩, ⟨url, hurl, _⟩, _⟩
  · rw [ho]; exact ⟨inst, stored, rfl, rfl, rfl, hstored⟩
  · obtain ⟨st, hst, _⟩ := projectStatus_ok inst _ inst1 hp
    rw [ho]; exact ⟨inst1, stored, rfl, rfl, by rw [hst], hstored⟩
  · obtain ⟨st, hst, _⟩ := projectStatus_ok inst _ inst1 hp
    have h2 : inst2.Finalizers = inst.Finalizers := by rw [hurl, hst]
    rw [ho]
    rcases updateStatus_cases env inst2 stored (stateIsStopped inst1) with
      ⟨e, _, hupd⟩ | ⟨_, hupd⟩
    · rw [hupd]; exact ⟨inst2, stored, rfl, rfl, h2, hstored⟩
    · rw [hupd]; exact ⟨inst2, inst2, rfl, rfl, h2, h2⟩

theorem createOrStop_finalizers (env : Env) (inst stored : Recording)
    (hstored : stored.Finalizers = inst.Finalizers) :
    ∃ i s, (createOrStop env inst stored).inst = some i ∧
      (createOrStop env inst stored).stored = some s ∧
      i.Finalizers = inst.Finalizers ∧ s.Finalizers = inst.Finalizers := by
  rcases createOrStop_cases env inst stored with h | ⟨e, h⟩
  · rw [h]; exact syncStatus_finalizers env inst stored hstored
  · rw [h]; exact ⟨inst, stored, rfl, rfl, rfl, hstored⟩

theorem validateRecordingState_stopped :
    validateRecordingState RecordingStateStopped = .ok RecordingStateStopped := by
  simp [validateRecordingState]

/-- A descriptor that reports what the status already holds projects to the same instance. -/
theorem projectStatus_same (inst : Recording) (d : Option RecordingDescriptor)
    (hstate : inst.Status.State = some RecordingStateStopped)
    (hsame : ∀ descriptor, d = some descriptor →
      descriptor.State = RecordingStateStopped ∧
      wrapInt64 (descriptor.StartTime * Millisecond) = inst.Status.StartTime ∧
      wrapInt64 (descriptor.Duration * Millisecond) = inst.Status.Duration) :
    projectStatus inst d = .ok inst := by
  cases d with
  | none => rfl
  | some descriptor =>
    obtain ⟨h1, h2, h3⟩ := hsame descriptor rfl
    unfold projectStatus
    simp only [h1, validateRecordingState_stopped, h2, h3, ← hstate]

/-- The outcomes of `syncStatus` for a Recording at rest: stopped, with its download URL
set, and reported unchanged by the remote agent. -/
theorem syncStatus_at_rest (env : Env) (inst : Recording) (u : String)
    (hstate : inst.Status.State = some RecordingStateStopped)
    (hurl : inst.Status.DownloadURL = some u)
    (hsame : ∀ ds descriptor, env.ListRecordings = .ok ds →
      findDescriptor inst.Spec.Name ds = some descriptor →
      descriptor.State = RecordingStateStopped ∧
      wrapInt64 (descriptor.StartTime * Millisecond) = inst.Status.StartTime ∧
      wrapInt64 (descriptor.Duration * Millisecond) = inst.Status.Duration) :
    (syncStatus env inst inst).inst = some inst ∧ (syncStatus env inst inst).stored = some inst ∧
      ((syncStatus env inst inst).err = none → (syncStatus env inst inst).result = {}) ∧
      ∀ c ∈ (syncStatus env inst inst).trace,
        c = Call.ListRecordings ∨ c = Call.CloseClient ∨ c = Call.StatusUpdate inst := by
  rcases syncStatus_cases env inst inst with
    ⟨e, calls, ho, hcalls⟩ | ⟨e, calls, inst1, ho, _, hnone, _⟩ |
    ⟨calls, inst1, inst2, ho, ⟨ds, hds, hp⟩, ⟨url, hu, hkeep⟩, hcalls⟩
  · rw [ho]
    refine ⟨rfl, rfl, by simp [failWith], ?_⟩
    intro c hc
    rcases hcalls c hc with h | h
    · exact Or.inl h
    · exact Or.inr (Or.inl h)
  · rw [hurl] at hnone; cases hnone
  · have hproj := projectStatus_same inst (findDescriptor inst.Spec.Name ds) hstate
      (fun d hd => hsame ds d hds hd)
    rw [hproj] at hp
    cases hp
    have hurl2 : url = some u := hkeep u hurl
    have h2 : inst2 = inst := by
      rw [hu, hurl2, ← hurl]
    subst h2
    have hstop : stateIsStopped inst2 = true := by
      rw [stateIsStopped_eq, hstate]; simp
    rw [ho]
    have htr : ∀ c ∈ calls ++ [Call.StatusUpdate inst2],
        c = Call.ListRecordings ∨ c = Call.CloseClient ∨ c = Call.StatusUpdate inst2 := by
      intro c hc
      rw [List.mem_append, List.mem_singleton] at hc
      rcases hc with hc | hc
      · rcases hcalls c hc with h | ⟨hn, _⟩
        · exact Or.inl h
        · rw [hurl] at hn; cases hn
      · exact Or.inr (Or.inr hc)
    rcases updateStatus_cases env inst2 inst2 (stateIsStopped inst2) with
      ⟨e, _, hupd⟩ | ⟨_, hupd⟩
    · rw [hupd]
      exact ⟨rfl, rfl, by simp [failWith], htr⟩
    · rw [hupd, hstop]
      exact ⟨rfl, rfl, fun _ => rfl, htr⟩

theorem createOrStop_no_update (env : Env) (inst stored : Recording) (r : Recording) :
    Call.Update r ∉ (createOrStop env inst stored).trace := by
  intro hr
  have hcos : Call.Update r ∉ createOrStopCalls env inst := by
    intro h
    unfold createOrStopCalls at h
    cases hst : inst.Status.State with
    | none =>
      simp only [hst] at h
      split at h <;> simp at h
    | some st =>
      simp only [hst] at h
      split at h <;> simp at h
  rcases createOrStop_cases env inst stored with h | ⟨e, h⟩
  · rw [h, Outcome.after_trace, List.mem_append] at hr
    rcases hr with hr | hr
    · exact hcos hr
    · have := syncStatus_trace env inst stored _ hr
      simp [Call.isSync] at this
  · rw [h] at hr
    simp only [failWith, List.mem_append, List.mem_singleton] at hr
    rcases hr with hr | hr
    · exact hcos hr
    · cases hr

theorem not_mem_erase_of_count_le_one (finalizers : List String)
    (h : finalizers.count recordingFinalizer ≤ 1) :
    recordingFinalizer ∉ finalizers.erase recordingFinalizer := by
  rw [← List.count_eq_zero, List.count_erase_self]
  omega

/-- For a fetched Recording that is not being deleted and holds the finalizer, no call to
`r.Client.Update` is made anywhere in the invocation. -/
theorem Reconcile_no_update_of_held (env : Env) (jfrClient : Bool) (request : Request)
    (inst : Recording)
    (hget : env.GetRecording request.Namespace request.Name = .ok inst)
    (hlive : inst.DeletionTimestamp = none)
    (hheld : hasRecordingFinalizer inst = true) (r : Recording) :
    Call.Update r ∉ (Reconcile env jfrClient request).trace := by
  have hnd : ¬ deleting inst := fun h => h.1 hlive
  intro hr
  rcases Reconcile_cases env jfrClient request with
    ⟨_, _, _, _, hcalls⟩ | ⟨inst', hget', ⟨hE, _⟩ | ⟨pre, svc, port, _, ho, hpre⟩⟩
  · rcases hcalls _ hr with ⟨_, h⟩ | ⟨_, _, h⟩ | ⟨_, _, h⟩ <;> cases h
  · rw [hget] at hget'
    cases hget'
    have := (hE.quiet hnd).1 _ hr
    simp [Call.isSetup] at this
  · rw [hget] at hget'
    cases hget'
    rw [ho, mem_connected_trace] at hr
    rcases hr with h | h | h | h | h | h
    · have := (hpre _ h).2.2 hnd
      simp [Call.isSetup] at this
    · cases h
    · cases h
    · rcases reconcileConnected_live env inst hlive with
        ⟨_, hrc⟩ | ⟨hf, _⟩ | ⟨hf, _⟩
      · rw [hrc] at h
        exact createOrStop_no_update env inst inst r h
      · rw [hheld] at hf; cases hf
      · rw [hheld] at hf; cases hf
    · cases h
    · cases h

/-! ## The claims -/

/-- C9 (requeue decision): if an invocation of `Reconcile` reaches the status write, for
the instance `r`, and the write succeeds, then it returns no error, `r` is the instance
after projection, and the result asks for a requeue after exactly 10 seconds when the
state of `r` is not `Stopped` (also when it is unset), and for no requeue (zero delay)
when it is `Stopped`. -/
theorem Reconcile_requeue_decision (env : Env) (jfrClient : Bool) (request : Request)
    (r : Recording) (hwrite : Call.StatusUpdate r ∈ (Reconcile env jfrClient request).trace)
    (hok : env.StatusUpdate r = none) :
    (Reconcile env jfrClient request).err = none ∧
      (Reconcile env jfrClient request).inst = some r ∧
      (r.Status.State ≠ some RecordingStateStopped →
        (Reconcile env jfrClient request).result =
          { Requeue := false, RequeueAfter := 10 * Second }) ∧
      (r.Status.State = some RecordingStateStopped →
        (Reconcile env jfrClient request).result = { Requeue := false, RequeueAfter := 0 }) := by
  rcases Reconcile_cases env jfrClient request with
    ⟨_, _, _, _, hcalls⟩ | ⟨inst, _, ⟨hE, _⟩ | ⟨pre, svc, port, _, ho, hpre⟩⟩
  · rcases hcalls _ hwrite with ⟨_, h⟩ | ⟨_, _, h⟩ | ⟨_, _, h⟩ <;> cases h
  · have := hE.calls _ hwrite
    simp [Call.beforeConnect] at this
  · rw [ho] at hwrite ⊢
    rw [mem_connected_trace] at hwrite
    rcases hwrite with h | h | h | h | h | h
    · have := (hpre _ h).1
      simp [Call.beforeConnect] at this
    · cases h
    · cases h
    · obtain ⟨h1, h2, _, h4⟩ := (reconcileConnected_tail env inst).statusWrite r h hok
      refine ⟨h1, h2, ?_, ?_⟩
      · intro hs
        simp only [Outcome.deferred_result, Outcome.after_result, h4, if_neg hs]
      · intro hs
        simp only [Outcome.deferred_result, Outcome.after_result, h4, if_pos hs]
    · cases h
    · cases h

/-- C8 (download URL immutability): if the fetched Recording has `Status.DownloadURL` set
to `u`, then whatever the collaborators answer, the instance and the stored object still
hold `u` after the invocation, `SaveRecording` is never called, the archive step makes no
call and changes nothing, and `ListSavedRecordings` is called only by the deletion of the
archived artifact (deletion marker and finalizer present). -/
theorem Reconcile_downloadURL_immutable (env : Env) (jfrClient : Bool) (request : Request)
    (inst : Recording) (u : String)
    (hget : env.GetRecording request.Namespace request.Name = .ok inst)
    (hurl : inst.Status.DownloadURL = some u) :
    (∀ i, (Reconcile env jfrClient request).inst = some i → i.Status.DownloadURL = some u) ∧
      (∀ i, (Reconcile env jfrClient request).stored = some i → i.Status.DownloadURL = some u) ∧
      (∀ n, Call.SaveRecording n ∉ (Reconcile env jfrClient request).trace) ∧
      (∀ i isStopped, i.Status.DownloadURL = some u →
        archiveRecording env i isStopped = (.ok i, [])) ∧
      (Call.ListSavedRecordings ∈ (Reconcile env jfrClient request).trace →
        inst.DeletionTimestamp ≠ none ∧ hasRecordingFinalizer inst = true) := by
  have harch : ∀ (i : Recording) (isStopped : Bool), i.Status.DownloadURL = some u →
      archiveRecording env i isStopped = (.ok i, []) := by
    intro i b hi
    unfold archiveRecording
    simp [hi]
  rcases Reconcile_cases env jfrClient request with
    ⟨hi, hs, _, _, hcalls⟩ | ⟨inst', hget', ⟨hE, _⟩ | ⟨pre, svc, port, _, ho, hpre⟩⟩
  · refine ⟨?_, ?_, ?_, harch, ?_⟩
    · intro i h; rw [hi] at h; cases h
    · intro i h; rw [hs] at h; cases h
    · intro n hn
      rcases hcalls _ hn with ⟨_, h⟩ | ⟨_, _, h⟩ | ⟨_, _, h⟩ <;> cases h
    · intro hn
      rcases hcalls _ hn with ⟨_, h⟩ | ⟨_, _, h⟩ | ⟨_, _, h⟩ <;> cases h
  · rw [hget] at hget'
    cases hget'
    obtain ⟨fs, hfs⟩ := hE.inst_eq
    obtain ⟨fs', hfs'⟩ := hE.stored_eq
    refine ⟨?_, ?_, ?_, harch, ?_⟩
    · intro i h; rw [hfs] at h; cases h; exact hurl
    · intro i h; rw [hfs'] at h; cases h; exact hurl
    · intro n hn
      have := hE.calls _ hn
      simp [Call.beforeConnect] at this
    · intro hn
      by_contra hnd
      have := (hE.quiet hnd).1 _ hn
      simp [Call.isSetup] at this
  · rw [hget] at hget'
    cases hget'
    have ht := reconcileConnected_tail env inst
    obtain ⟨i1, hi1, hu1⟩ := ht.inst_url
    obtain ⟨i2, hi2, hu2⟩ := ht.stored_url
    rw [ho]
    refine ⟨?_, ?_, ?_, harch, ?_⟩
    · intro i h
      simp only [Outcome.deferred_inst, Outcome.after_inst, hi1] at h
      cases h; exact hu1 u hurl
    · intro i h
      simp only [Outcome.deferred_stored, Outcome.after_stored, hi2] at h
      cases h; exact hu2 u hurl
    · intro n hn
      rw [mem_connected_trace] at hn
      rcases hn with h | h | h | h | h | h
      · have := (hpre _ h).1
        simp [Call.beforeConnect] at this
      · cases h
      · cases h
      · have := ht.save _ h (Or.inl ⟨n, rfl⟩)
        rw [hurl] at this; cases this
      · cases h
      · cases h
    · intro hn
      rw [mem_connected_trace] at hn
      rcases hn with h | h | h | h | h | h
      · by_contra hnd
        have := (hpre _ h).2.2 hnd
        simp [Call.isSetup] at this
      · cases h
      · cases h
      · have := ht.save _ h (Or.inr rfl)
        rw [hurl] at this; cases this
      · cases h
      · cases h

/-- C1 (stop condition): for a Recording that `Reconcile` carries to the create-or-stop
step (fetched, not being deleted, target connected, finalizer present or added),
`StopRecording` is called if and only if `Spec.State` is `Stopped` and `Status.State` is
set and is neither `Stopped` nor `Stopping`; `shouldStopRecording` is true exactly under
that condition; and a stop call is made only for this recording with `Status.State` set. -/
theorem Reconcile_stop_iff (env : Env) (jfrClient : Bool) (request : Request)
    (inst : Recording) (svc : Service) (port : Int)
    (hget : env.GetRecording request.Namespace request.Name = .ok inst)
    (hlive : inst.DeletionTimestamp = none)
    (hconn : Call.ConnectToService svc port ∈ (Reconcile env jfrClient request).trace)
    (hok : env.ConnectToService svc port = none)
    (hfin : hasRecordingFinalizer inst = false → env.Update (withFinalizer inst) = none) :
    ((∃ n, Call.StopRecording n ∈ (Reconcile env jfrClient request).trace) ↔
        (inst.Spec.State = some RecordingStateStopped ∧
          ∃ current, inst.Status.State = some current ∧
            current ≠ RecordingStateStopped ∧ current ≠ RecordingStateStopping)) ∧
      (shouldStopRecording inst = true ↔
        (inst.Spec.State = some RecordingStateStopped ∧
          ∃ current, inst.Status.State = some current ∧
            current ≠ RecordingStateStopped ∧ current ≠ RecordingStateStopping)) ∧
      (∀ n, Call.StopRecording n ∈ (Reconcile env jfrClient request).trace →
        n = inst.Spec.Name ∧ inst.Status.State ≠ none) := by
  obtain ⟨pre, post, htrace, hpre, hpost⟩ :=
    Reconcile_live_trace env jfrClient request inst svc port hget hlive hconn hok hfin
  have hmem : ∀ n, Call.StopRecording n ∈ (Reconcile env jfrClient request).trace ↔
      n = inst.Spec.Name ∧ shouldStopRecording inst = true := by
    intro n
    rw [htrace, List.mem_append, List.mem_append, mem_createOrStopCalls_stop]
    constructor
    · rintro ((h | h) | h)
      · have := hpre _ h
        simp [Call.beforeConnect] at this
      · exact h
      · have := hpost _ h
        simp [Call.isSync, Call.isSetup] at this
    · intro h
      exact Or.inl (Or.inr h)
  refine ⟨?_, shouldStopRecording_iff inst, ?_⟩
  · rw [← shouldStopRecording_iff]
    constructor
    · rintro ⟨n, hn⟩
      exact ((hmem n).1 hn).2
    · intro h
      exact ⟨inst.Spec.Name, (hmem _).2 ⟨rfl, h⟩⟩
  · intro n hn
    obtain ⟨h1, h2⟩ := (hmem n).1 hn
    refine ⟨h1, ?_⟩
    obtain ⟨_, cur, hcur, _⟩ := (shouldStopRecording_iff inst).1 h2
    rw [hcur]
    simp

/-- C2 (creation call): for a Recording whose `Status.State` is unset when `Reconcile`
carries it to the create-or-stop step, a zero `Spec.Duration` makes `StartRecording` the
creation call and `DumpRecording` is never called, and a nonzero `Spec.Duration` makes
`DumpRecording` the creation call and `StartRecording` is never called. -/
theorem Reconcile_creation_call (env : Env) (jfrClient : Bool) (request : Request)
    (inst : Recording) (svc : Service) (port : Int)
    (hget : env.GetRecording request.Namespace request.Name = .ok inst)
    (hlive : inst.DeletionTimestamp = none)
    (hconn : Call.ConnectToService svc port ∈ (Reconcile env jfrClient request).trace)
    (hok : env.ConnectToService svc port = none)
    (hfin : hasRecordingFinalizer inst = false → env.Update (withFinalizer inst) = none)
    (hunset : inst.Status.State = none) :
    (inst.Spec.Duration = 0 →
        Call.StartRecording inst.Spec.Name inst.Spec.EventOptions ∈
          (Reconcile env jfrClient request).trace ∧
        (∀ n opts, Call.StartRecording n opts ∈ (Reconcile env jfrClient request).trace →
          n = inst.Spec.Name ∧ opts = inst.Spec.EventOptions) ∧
        ∀ n secs opts, Call.DumpRecording n secs opts ∉ (Reconcile env jfrClient request).trace) ∧
      (inst.Spec.Duration ≠ 0 →
        Call.DumpRecording inst.Spec.Name (env.seconds inst.Spec.Duration) inst.Spec.EventOptions ∈
          (Reconcile env jfrClient request).trace ∧
        (∀ n secs opts, Call.DumpRecording n secs opts ∈ (Reconcile env jfrClient request).trace →
          n = inst.Spec.Name ∧ opts = inst.Spec.EventOptions) ∧
        ∀ n opts, Call.StartRecording n opts ∉ (Reconcile env jfrClient request).trace) := by
  obtain ⟨pre, post, htrace, hpre, hpost⟩ :=
    Reconcile_live_trace env jfrClient request inst svc port hget hlive hconn hok hfin
  have hstart : ∀ n opts, Call.StartRecording n opts ∈ (Reconcile env jfrClient request).trace ↔
      n = inst.Spec.Name ∧ opts = inst.Spec.EventOptions ∧ inst.Status.State = none ∧
        inst.Spec.Duration = 0 := by
    intro n opts
    rw [htrace, List.mem_append, List.mem_append, mem_createOrStopCalls_start]
    constructor
    · rintro ((h | h) | h)
      · have := hpre _ h
        simp [Call.beforeConnect] at this
      · exact h
      · have := hpost _ h
        simp [Call.isSync, Call.isSetup] at this
    · intro h
      exact Or.inl (Or.inr h)
  have hdump : ∀ n secs opts,
      Call.DumpRecording n secs opts ∈ (Reconcile env jfrClient request).trace ↔
      n = inst.Spec.Name ∧ secs = env.seconds inst.Spec.Duration ∧
        opts = inst.Spec.EventOptions ∧ inst.Status.State = none ∧ inst.Spec.Duration ≠ 0 := by
    intro n secs opts
    rw [htrace, List.mem_append, List.mem_append, mem_createOrStopCalls_dump]
    constructor
    · rintro ((h | h) | h)
      · have := hpre _ h
        simp [Call.beforeConnect] at this
      · exact h
      · have := hpost _ h
        simp [Call.isSync, Call.isSetup] at this
    · intro h
      exact Or.inl (Or.inr h)
  constructor
  · intro hd
    refine ⟨(hstart _ _).2 ⟨rfl, rfl, hunset, hd⟩, ?_, ?_⟩
    · intro n opts h
      obtain ⟨h1, h2, _⟩ := (hstart n opts).1 h
      exact ⟨h1, h2⟩
    · intro n secs opts h
      exact ((hdump n secs opts).1 h).2.2.2.2 hd
  · intro hd
    refine ⟨(hdump _ _ _).2 ⟨rfl, rfl, rfl, hunset, hd⟩, ?_, ?_⟩
    · intro n secs opts h
      obtain ⟨h1, _, h3, _⟩ := (hdump n secs opts).1 h
      exact ⟨h1, h3⟩
    · intro n opts h
      exact hd ((hstart n opts).1 h).2.2.2

/-- C3 (exact allow-list): for every string `s`, either `s` is one of the four canonical
states and `validateRecordingState` returns `s` itself with no error, or `s` is none of
them and `validateRecordingState` returns the error "unknown recording state s" and no
state; no input is coerced or defaulted. -/
theorem validateRecordingState_allow_list (s : String) :
    (s ∈ [RecordingStateCreated, RecordingStateRunning, RecordingStateStopping,
          RecordingStateStopped] ∧
        validateRecordingState s = .ok s) ∨
      (s ∉ [RecordingStateCreated, RecordingStateRunning, RecordingStateStopping,
          RecordingStateStopped] ∧
        validateRecordingState s = .error (.other ("unknown recording state " ++ s))) := by
  unfold validateRecordingState
  by_cases h : s = RecordingStateCreated ∨ s = RecordingStateRunning ∨
      s = RecordingStateStopping ∨ s = RecordingStateStopped
  · left
    exact ⟨by simpa using h, by simp only [if_pos h]⟩
  · right
    exact ⟨by simpa using h, by simp only [if_neg h]⟩

/-- C7 (deletion with a reachable target): for a Recording with a deletion marker and the
finalizer, once `Reconcile` has connected to the target, whatever the listing and the
deletion of the live recording answer, the first finalizer token is removed from the
instance, the update that persists the removal is issued, the returned error is exactly
the answer of that update (an error if and only if persisting fails), the result asks for
no requeue, and the store holds the instance without the token when the update succeeds
and the fetched instance otherwise; when the list held the token at most once, the
instance no longer has the finalizer. -/
theorem Reconcile_deletion_reachable (env : Env) (jfrClient : Bool) (request : Request)
    (inst : Recording) (svc : Service) (port : Int)
    (hget : env.GetRecording request.Namespace request.Name = .ok inst)
    (hdel : inst.DeletionTimestamp ≠ none)
    (hfin : hasRecordingFinalizer inst = true)
    (hconn : Call.ConnectToService svc port ∈ (Reconcile env jfrClient request).trace)
    (hok : env.ConnectToService svc port = none) :
    (Reconcile env jfrClient request).inst = some (withoutFinalizer inst) ∧
      Call.Update (withoutFinalizer inst) ∈ (Reconcile env jfrClient request).trace ∧
      (Reconcile env jfrClient request).err = env.Update (withoutFinalizer inst) ∧
      ((Reconcile env jfrClient request).err ≠ none ↔ env.Update (withoutFinalizer inst) ≠ none) ∧
      (Reconcile env jfrClient request).result = {} ∧
      (Reconcile env jfrClient request).stored =
        some (if env.Update (withoutFinalizer inst) = none then withoutFinalizer inst else inst) ∧
      (inst.Finalizers.count recordingFinalizer ≤ 1 →
        hasRecordingFinalizer (withoutFinalizer inst) = false) := by
  have hgone : inst.Finalizers.count recordingFinalizer ≤ 1 →
      hasRecordingFinalizer (withoutFinalizer inst) = false := by
    intro hc
    rw [hasRecordingFinalizer_eq_false_iff]
    exact not_mem_erase_of_count_le_one inst.Finalizers hc
  rcases Reconcile_cases env jfrClient request with
    ⟨_, _, _, _, hcalls⟩ | ⟨inst', hget', ⟨hE, _⟩ | ⟨pre, svc', port', _, ho, hpre⟩⟩
  · rcases hcalls _ hconn with ⟨_, h⟩ | ⟨_, _, h⟩ | ⟨_, _, h⟩ <;> cases h
  · exact absurd hok (hE.connect svc port hconn)
  · rw [hget] at hget'
    cases hget'
    have hmem : recordingFinalizer ∈ inst.Finalizers := (hasRecordingFinalizer_iff inst).1 hfin
    obtain ⟨hcalls, herr, hst⟩ := removeRecordingFinalizer_of_mem env inst inst hmem
    have hrec := removeRecordingFinalizer_recording env inst inst
    rcases reconcileConnected_deleted env inst hdel with ⟨hf, _⟩ | ⟨_, h⟩
    · rw [hfin] at hf; cases hf
    · rw [ho, h, hcalls, herr, hst, hrec]
      refine ⟨rfl, ?_, rfl, Iff.rfl, rfl, rfl, hgone⟩
      simp [Outcome.after, Outcome.deferred, withoutFinalizer]

/-- C5, amended (deletion marker without the finalizer): the invocation makes only
lookups in the store and the connection set-up (`FindContainerJFR`,
`ConnectToContainerJFR`, `Get` of the Recording, FlightRecorder and Service, `Lock`,
`ConnectToService`, `DisconnectClient`, `Unlock`): it lists, starts, stops, saves and
deletes nothing on the remote agent, writes neither status nor metadata, and leaves the
instance and the stored object as fetched. -/
theorem Reconcile_deleted_without_finalizer (env : Env) (jfrClient : Bool) (request : Request)
    (inst : Recording)
    (hget : env.GetRecording request.Namespace request.Name = .ok inst)
    (hdel : inst.DeletionTimestamp ≠ none)
    (hfin : hasRecordingFinalizer inst = false) :
    (∀ c ∈ (Reconcile env jfrClient request).trace, c.isSetup = true) ∧
      (∀ r, Call.StatusUpdate r ∉ (Reconcile env jfrClient request).trace) ∧
      (∀ r, Call.Update r ∉ (Reconcile env jfrClient request).trace) ∧
      (∀ i, (Reconcile env jfrClient request).inst = some i → i = inst) ∧
      (∀ i, (Reconcile env jfrClient request).stored = some i → i = inst) := by
  have hnd : ¬ deleting inst := by
    intro h
    have h2 := h.2
    rw [hfin] at h2
    cases h2
  have key : (∀ c ∈ (Reconcile env jfrClient request).trace, c.isSetup = true) ∧
      (∀ i, (Reconcile env jfrClient request).inst = some i → i = inst) ∧
      (∀ i, (Reconcile env jfrClient request).stored = some i → i = inst) := by
    rcases Reconcile_cases env jfrClient request with
      ⟨hi, hs, _, _, hcalls⟩ | ⟨inst', hget', ⟨hE, _⟩ | ⟨pre, svc', port', _, ho, hpre⟩⟩
    · refine ⟨?_, ?_, ?_⟩
      · intro c hc
        rcases hcalls _ hc with ⟨_, h⟩ | ⟨_, _, h⟩ | ⟨_, _, h⟩ <;> subst h <;> rfl
      · intro i h; rw [hi] at h; cases h
      · intro i h; rw [hs] at h; cases h
    · rw [hget] at hget'
      cases hget'
      obtain ⟨h1, h2, h3⟩ := hE.quiet hnd
      refine ⟨h1, ?_, ?_⟩
      · intro i h; rw [h2] at h; cases h; rfl
      · intro i h; rw [h3] at h; cases h; rfl
    · rw [hget] at hget'
      cases hget'
      rcases reconcileConnected_deleted env inst hdel with ⟨_, h⟩ | ⟨hf, _⟩
      · rw [ho, h]
        refine ⟨?_, ?_, ?_⟩
        · intro c hc
          simp only [Outcome.deferred_trace, Outcome.after_trace, List.append_nil,
            List.mem_append, List.mem_cons, List.mem_singleton, List.not_mem_nil,
            or_false] at hc
          rcases hc with (hc | hc | hc) | hc | hc
          · exact (hpre c hc).2.2 hnd
          all_goals subst hc; rfl
        · intro i h; cases h; rfl
        · intro i h; cases h; rfl
      · rw [hfin] at hf; cases hf
  refine ⟨key.1, ?_, ?_, key.2.1, key.2.2⟩
  · intro r hr
    have := key.1 _ hr
    simp [Call.isSetup] at this
  · intro r hr
    have := key.1 _ hr
    simp [Call.isSetup] at this

/-- C6, amended (at rest): for a Recording that is stopped, has its download URL set, has
no deletion marker and holds the finalizer, and whose entry in the list of the remote
agent (if it is listed) reports the state, start time and duration the status holds, an
invocation makes only lookups, the connection set-up, `ListRecordings` (with `CloseClient`
when it fails) and a status write of the unchanged instance: nothing is started, stopped,
saved or deleted, and the instance and the stored object are identical to the fetched
one. -/
theorem Reconcile_at_rest (env : Env) (jfrClient : Bool) (request : Request)
    (inst : Recording) (u : String)
    (hget : env.GetRecording request.Namespace request.Name = .ok inst)
    (hstate : inst.Status.State = some RecordingStateStopped)
    (hurl : inst.Status.DownloadURL = some u)
    (hlive : inst.DeletionTimestamp = none)
    (hfin : hasRecordingFinalizer inst = true)
    (hsame : ∀ ds descriptor, env.ListRecordings = .ok ds →
      findDescriptor inst.Spec.Name ds = some descriptor →
      descriptor.State = RecordingStateStopped ∧
      wrapInt64 (descriptor.StartTime * Millisecond) = inst.Status.StartTime ∧
      wrapInt64 (descriptor.Duration * Millisecond) = inst.Status.Duration) :
    (∀ c ∈ (Reconcile env jfrClient request).trace,
        c.isSetup = true ∨ c = Call.ListRecordings ∨ c = Call.CloseClient ∨
          c = Call.StatusUpdate inst) ∧
      (∀ i, (Reconcile env jfrClient request).inst = some i → i = inst) ∧
      (∀ i, (Reconcile env jfrClient request).stored = some i → i = inst) := by
  have hnd : ¬ deleting inst := fun h => h.1 hlive
  rcases Reconcile_cases env jfrClient request with
    ⟨hi, hs, _, _, hcalls⟩ | ⟨inst', hget', ⟨hE, _⟩ | ⟨pre, svc', port', _, ho, hpre⟩⟩
  · refine ⟨?_, ?_, ?_⟩
    · intro c hc
      left
      rcases hcalls _ hc with ⟨_, h⟩ | ⟨_, _, h⟩ | ⟨_, _, h⟩ <;> subst h <;> rfl
    · intro i h; rw [hi] at h; cases h
    · intro i h; rw [hs] at h; cases h
  · rw [hget] at hget'
    cases hget'
    obtain ⟨h1, h2, h3⟩ := hE.quiet hnd
    refine ⟨fun c hc => Or.inl (h1 c hc), ?_, ?_⟩
    · intro i h; rw [h2] at h; cases h; rfl
    · intro i h; rw [h3] at h; cases h; rfl
  · rw [hget] at hget'
    cases hget'
    have hcos : createOrStopCalls env inst = [] := by
      have hns : shouldStopRecording inst = false := by
        cases hs : shouldStopRecording inst with
        | false => rfl
        | true =>
          obtain ⟨_, cur, hcur, hne, _⟩ := (shouldStopRecording_iff inst).1 hs
          rw [hstate] at hcur
          cases hcur
          exact absurd rfl hne
      unfold createOrStopCalls
      rw [hstate]
      simp [hns]
    have hwrap : ∀ (o : Outcome), o.inst = some inst → o.stored = some inst →
        (∀ c ∈ o.trace, c = Call.ListRecordings ∨ c = Call.CloseClient ∨
          c = Call.StatusUpdate inst) →
        reconcileConnected env inst = o →
        (∀ c ∈ (Reconcile env jfrClient request).trace,
            c.isSetup = true ∨ c = Call.ListRecordings ∨ c = Call.CloseClient ∨
              c = Call.StatusUpdate inst) ∧
          (∀ i, (Reconcile env jfrClient request).inst = some i → i = inst) ∧
          (∀ i, (Reconcile env jfrClient request).stored = some i → i = inst) := by
      intro o hoi hos hot hrc
      rw [ho, hrc]
      refine ⟨?_, ?_, ?_⟩
      · intro c hc
        simp only [Outcome.deferred_trace, Outcome.after_trace,
          List.mem_append, List.mem_cons, List.mem_singleton, List.not_mem_nil,
          or_false] at hc
        rcases hc with ((hc | hc | hc) | hc) | hc | hc
        · exact Or.inl ((hpre c hc).2.2 hnd)
        · subst hc; exact Or.inl rfl
        · subst hc; exact Or.inl rfl
        · exact Or.inr (hot c hc)
        · subst hc; exact Or.inl rfl
        · subst hc; exact Or.inl rfl
      · intro i h
        simp only [Outcome.deferred_inst, Outcome.after_inst, hoi] at h
        cases h; rfl
      · intro i h
        simp only [Outcome.deferred_stored, Outcome.after_stored, hos] at h
        cases h; rfl
    rcases reconcileConnected_live env inst hlive with
      ⟨_, h⟩ | ⟨hf, _⟩ | ⟨hf, _⟩
    · rcases createOrStop_cases env inst inst with h2 | ⟨e, h2⟩
      · rw [hcos] at h2
        obtain ⟨a, b, _, d⟩ := syncStatus_at_rest env inst u hstate hurl hsame
        refine hwrap _ ?_ ?_ ?_ (h.trans h2)
        · exact a
        · exact b
        · intro x hx
          simp only [Outcome.after_trace, List.nil_append] at hx
          exact d x hx
      · rw [hcos] at h2
        refine hwrap _ rfl rfl ?_ (h.trans h2)
        intro x hx
        simp only [failWith, List.nil_append, List.mem_singleton] at hx
        exact Or.inr (Or.inl hx)
    · rw [hfin] at hf; cases hf
    · rw [hfin] at hf; cases hf

/-- C4, amended (finalizer invariant): for an invocation on a fetched Recording whose
FlightRecorder is found and has reported its target, and that returns no error: without a
deletion marker the finalizer is present on the instance and on the stored object
afterwards; with a deletion marker, one finalizer token has been removed from the stored
object, so that the finalizer is absent from it when the list held the token at most
once. -/
theorem Reconcile_finalizer_invariant (env : Env) (jfrClient : Bool) (request : Request)
    (inst : Recording) (jfr : FlightRecorder)
    (hget : env.GetRecording request.Namespace request.Name = .ok inst)
    (hfr : (getFlightRecorder env inst).1 = .ok (some jfr))
    (htarget : jfr.Target ≠ none)
    (herr : (Reconcile env jfrClient request).err = none) :
    (inst.DeletionTimestamp = none →
        ∃ i s, (Reconcile env jfrClient request).inst = some i ∧
          (Reconcile env jfrClient request).stored = some s ∧
          hasRecordingFinalizer i = true ∧ hasRecordingFinalizer s = true) ∧
      (inst.DeletionTimestamp ≠ none →
        ∃ s, (Reconcile env jfrClient request).stored = some s ∧
          s.Finalizers = inst.Finalizers.erase recordingFinalizer ∧
          (inst.Finalizers.count recordingFinalizer ≤ 1 → hasRecordingFinalizer s = false)) := by
  have hgone : inst.Finalizers.count recordingFinalizer ≤ 1 →
      hasRecordingFinalizer (withoutFinalizer inst) = false := by
    intro hc
    rw [hasRecordingFinalizer_eq_false_iff]
    exact not_mem_erase_of_count_le_one inst.Finalizers hc
  rcases Reconcile_cases env jfrClient request with
    ⟨_, _, _, hne, _⟩ | ⟨inst', hget', ⟨hE, hp⟩ | ⟨pre, svc', port', _, ho, hpre⟩⟩
  · exact absurd herr (hne inst hget)
  · rw [hget] at hget'
    cases hget'
    rcases hp herr with (h | ⟨jfr', h1, h2⟩) | ⟨hdeleting, hstored⟩
    · rw [hfr] at h; cases h
    · rw [hfr] at h1
      cases h1
      exact absurd h2 htarget
    · refine ⟨fun hlive => absurd hlive hdeleting.1, fun _ => ⟨_, hstored, rfl, hgone⟩⟩
  · rw [hget] at hget'
    cases hget'
    rw [ho] at herr ⊢
    simp only [Outcome.deferred_err, Outcome.after_err] at herr
    simp only [Outcome.deferred_inst, Outcome.after_inst, Outcome.deferred_stored,
      Outcome.after_stored]
    constructor
    · intro hlive
      have hkeep : ∀ (i0 : Recording), hasRecordingFinalizer i0 = true →
          ∃ i s, (createOrStop env i0 i0).inst = some i ∧ (createOrStop env i0 i0).stored = some s ∧
            hasRecordingFinalizer i = true ∧ hasRecordingFinalizer s = true := by
        intro i0 h0
        obtain ⟨i, s, hi, hs, hif, hsf⟩ := createOrStop_finalizers env i0 i0 rfl
        refine ⟨i, s, hi, hs, ?_, ?_⟩
        · unfold hasRecordingFinalizer at h0 ⊢; rw [hif]; exact h0
        · unfold hasRecordingFinalizer at h0 ⊢; rw [hsf]; exact h0
      rcases reconcileConnected_live env inst hlive with
        ⟨hf, h⟩ | ⟨_, e, _, h⟩ | ⟨_, _, h⟩
      · rw [h]; exact hkeep inst hf
      · rw [h] at herr; simp [failWith] at herr
      · rw [h]
        simp only [Outcome.after_inst, Outcome.after_stored]
        apply hkeep
        rw [hasRecordingFinalizer_iff]
        simp [withFinalizer]
    · intro hdel
      rcases reconcileConnected_deleted env inst hdel with ⟨hf, h⟩ | ⟨hf, h⟩
      · rw [h]
        refine ⟨inst, rfl, ?_, fun _ => hf⟩
        rw [List.erase_of_not_mem ((hasRecordingFinalizer_eq_false_iff inst).1 hf)]
      · have hmem : recordingFinalizer ∈ inst.Finalizers := (hasRecordingFinalizer_iff inst).1 hf
        obtain ⟨_, herr2, hst⟩ := removeRecordingFinalizer_of_mem env inst inst hmem
        rw [h] at herr ⊢
        simp only at herr ⊢
        rw [herr2] at herr
        rw [hst, if_pos herr]
        exact ⟨_, rfl, rfl, hgone⟩

/-- C10, amended (finalizer guard at the data level): `addRecordingFinalizer` appends the
token unconditionally, so the token is present afterwards; the check for absence is made
by its caller: in an invocation of `Reconcile` on a fetched Recording that is not being
deleted and already holds the token, no update is issued at all, from the first call to
the last; `removeRecordingFinalizer` deletes exactly the first matching token, keeping
all other entries in order, and on a list without the token it changes nothing and
issues no update. -/
theorem finalizer_add_remove (env : Env) (jfrClient : Bool) (request : Request)
    (recording stored : Recording) :
    (addRecordingFinalizer env recording stored).recording.Finalizers =
        recording.Finalizers ++ [recordingFinalizer] ∧
      hasRecordingFinalizer (addRecordingFinalizer env recording stored).recording = true ∧
      (env.GetRecording request.Namespace request.Name = .ok recording →
        recording.DeletionTimestamp = none → hasRecordingFinalizer recording = true →
        ∀ r, Call.Update r ∉ (Reconcile env jfrClient request).trace) ∧
      (removeRecordingFinalizer env recording stored).recording.Finalizers =
        recording.Finalizers.erase recordingFinalizer ∧
      (hasRecordingFinalizer recording = true ∨
        removeRecordingFinalizer env recording stored = ⟨none, recording, stored, []⟩) := by
  have hadd : (addRecordingFinalizer env recording stored).recording =
      withFinalizer recording := by
    unfold addRecordingFinalizer withFinalizer
    dsimp only
    split <;> rfl
  refine ⟨by rw [hadd]; rfl, ?_, ?_, ?_, ?_⟩
  · rw [hadd, hasRecordingFinalizer_iff]
    simp [withFinalizer]
  · intro hget hlive hheld r
    exact Reconcile_no_update_of_held env jfrClient request recording hget hlive hheld r
  · rw [removeRecordingFinalizer_recording]
  · cases hf : hasRecordingFinalizer recording with
    | true => exact Or.inl rfl
    | false =>
      right
      exact removeRecordingFinalizer_of_not_mem env recording stored
        ((hasRecordingFinalizer_eq_false_iff recording).1 hf)

/-! ## The claims on concrete inputs -/

/-- Witness of C9: the first reconciliation of `rec1` writes the status `recStarted`, which
is running, and asks for a requeue after 10 seconds. -/
theorem Reconcile_requeue_decision_witness :
    (Call.StatusUpdate recStarted ∈ (Reconcile envStart false req1).trace ∧
        envStart.StatusUpdate recStarted = none) ∧
      ((Reconcile envStart false req1).err = none ∧
        (Reconcile envStart false req1).inst = some recStarted ∧
        (recStarted.Status.State ≠ some RecordingStateStopped →
          (Reconcile envStart false req1).result =
            { Requeue := false, RequeueAfter := 10 * Second }) ∧
        (recStarted.Status.State = some RecordingStateStopped →
          (Reconcile envStart false req1).result = { Requeue := false, RequeueAfter := 0 })) :=
  ⟨⟨by decide, rfl⟩, Reconcile_requeue_decision envStart false req1 recStarted (by decide) rfl⟩

/-- Witness of C8: `recAtRest` asks for archiving and has its download URL set. -/
theorem Reconcile_downloadURL_immutable_witness :
    (envAtRest.GetRecording req1.Namespace req1.Name = .ok recAtRest ∧
        recAtRest.Status.DownloadURL = some "https://cjfr/rec1.jfr") ∧
      ((∀ i, (Reconcile envAtRest false req1).inst = some i →
          i.Status.DownloadURL = some "https://cjfr/rec1.jfr") ∧
        (∀ i, (Reconcile envAtRest false req1).stored = some i →
          i.Status.DownloadURL = some "https://cjfr/rec1.jfr") ∧
        (∀ n, Call.SaveRecording n ∉ (Reconcile envAtRest false req1).trace) ∧
        (∀ i isStopped, i.Status.DownloadURL = some "https://cjfr/rec1.jfr" →
          archiveRecording envAtRest i isStopped = (.ok i, [])) ∧
        (Call.ListSavedRecordings ∈ (Reconcile envAtRest false req1).trace →
          recAtRest.DeletionTimestamp ≠ none ∧ hasRecordingFinalizer recAtRest = true)) :=
  ⟨⟨rfl, rfl⟩,
    Reconcile_downloadURL_immutable envAtRest false req1 recAtRest "https://cjfr/rec1.jfr" rfl rfl⟩

/-- Witness of C1: `recRunning` is running and asked to stop. -/
theorem Reconcile_stop_iff_witness :
    (Call.ConnectToService svc1 9091 ∈
          (Reconcile (envOf recRunning jfrReady [descRunning] []) true req1).trace ∧
        recRunning.DeletionTimestamp = none) ∧
      (((∃ n, Call.StopRecording n ∈
            (Reconcile (envOf recRunning jfrReady [descRunning] []) true req1).trace) ↔
          (recRunning.Spec.State = some RecordingStateStopped ∧
            ∃ current, recRunning.Status.State = some current ∧
              current ≠ RecordingStateStopped ∧ current ≠ RecordingStateStopping)) ∧
        (shouldStopRecording recRunning = true ↔
          (recRunning.Spec.State = some RecordingStateStopped ∧
            ∃ current, recRunning.Status.State = some current ∧
              current ≠ RecordingStateStopped ∧ current ≠ RecordingStateStopping)) ∧
        (∀ n, Call.StopRecording n ∈
            (Reconcile (envOf recRunning jfrReady [descRunning] []) true req1).trace →
          n = recRunning.Spec.Name ∧ recRunning.Status.State ≠ none)) :=
  ⟨⟨by decide, rfl⟩,
    Reconcile_stop_iff (envOf recRunning jfrReady [descRunning] []) true req1 recRunning svc1 9091
      rfl rfl (by decide) rfl (fun _ => rfl)⟩

/-- Witness of C2: `recTimed` has a nonzero duration and no state yet. -/
theorem Reconcile_creation_call_witness :
    (Call.ConnectToService svc1 9091 ∈
          (Reconcile (envOf recTimed jfrReady [] []) false req1).trace ∧
        recTimed.Status.State = none ∧ recTimed.Spec.Duration ≠ 0) ∧
      ((recTimed.Spec.Duration = 0 →
          Call.StartRecording recTimed.Spec.Name recTimed.Spec.EventOptions ∈
            (Reconcile (envOf recTimed jfrReady [] []) false req1).trace ∧
          (∀ n opts, Call.StartRecording n opts ∈
              (Reconcile (envOf recTimed jfrReady [] []) false req1).trace →
            n = recTimed.Spec.Name ∧ opts = recTimed.Spec.EventOptions) ∧
          ∀ n secs opts, Call.DumpRecording n secs opts ∉
            (Reconcile (envOf recTimed jfrReady [] []) false req1).trace) ∧
        (recTimed.Spec.Duration ≠ 0 →
          Call.DumpRecording recTimed.Spec.Name
              ((envOf recTimed jfrReady [] []).seconds recTimed.Spec.Duration)
              recTimed.Spec.EventOptions ∈
            (Reconcile (envOf recTimed jfrReady [] []) false req1).trace ∧
          (∀ n secs opts, Call.DumpRecording n secs opts ∈
              (Reconcile (envOf recTimed jfrReady [] []) false req1).trace →
            n = recTimed.Spec.Name ∧ opts = recTimed.Spec.EventOptions) ∧
          ∀ n opts, Call.StartRecording n opts ∉
            (Reconcile (envOf recTimed jfrReady [] []) false req1).trace)) :=
  ⟨⟨by decide, rfl, by decide⟩,
    Reconcile_creation_call (envOf recTimed jfrReady [] []) false req1 recTimed svc1 9091
      rfl rfl (by decide) rfl (fun _ => rfl) rfl⟩

/-- Witness of C7: `recDeleting` is deleted while listing the live recordings fails. -/
theorem Reconcile_deletion_reachable_witness :
    (Call.ConnectToService svc1 9091 ∈ (Reconcile (envListFails recDeleting) false req1).trace ∧
        (envListFails recDeleting).ListRecordings = .error (.other "list failed")) ∧
      ((Reconcile (envListFails recDeleting) false req1).inst = some (withoutFinalizer recDeleting) ∧
        Call.Update (withoutFinalizer recDeleting) ∈
          (Reconcile (envListFails recDeleting) false req1).trace ∧
        (Reconcile (envListFails recDeleting) false req1).err =
          (envListFails recDeleting).Update (withoutFinalizer recDeleting) ∧
        ((Reconcile (envListFails recDeleting) false req1).err ≠ none ↔
          (envListFails recDeleting).Update (withoutFinalizer recDeleting) ≠ none) ∧
        (Reconcile (envListFails recDeleting) false req1).result = {} ∧
        (Reconcile (envListFails recDeleting) false req1).stored =
          some (if (envListFails recDeleting).Update (withoutFinalizer recDeleting) = none
            then withoutFinalizer recDeleting else recDeleting) ∧
        (recDeleting.Finalizers.count recordingFinalizer ≤ 1 →
          hasRecordingFinalizer (withoutFinalizer recDeleting) = false)) :=
  ⟨⟨by decide, rfl⟩,
    Reconcile_deletion_reachable (envListFails recDeleting) false req1 recDeleting svc1 9091
      rfl (by decide) (by decide) (by decide) rfl⟩

/-- Counterexample to C5: for `recDeletedBare`, which carries a deletion marker and no
finalizer, `Reconcile` connects to Container JFR and has it connect to the target
service. -/
theorem deleted_without_finalizer_still_connects :
    (envOf recDeletedBare jfrReady [] []).GetRecording req1.Namespace req1.Name = .ok recDeletedBare ∧
      recDeletedBare.DeletionTimestamp ≠ none ∧ hasRecordingFinalizer recDeletedBare = false ∧
      Call.ConnectToContainerJFR "ns" "containerjfr" ∈
        (Reconcile (envOf recDeletedBare jfrReady [] []) false req1).trace ∧
      Call.ConnectToService svc1 9091 ∈
        (Reconcile (envOf recDeletedBare jfrReady [] []) false req1).trace :=
  ⟨rfl, by decide, by decide, by decide, by decide⟩

/-- Witness of C5, amended, on `recDeletedBare`. -/
theorem Reconcile_deleted_without_finalizer_witness :
    (recDeletedBare.DeletionTimestamp ≠ none ∧ hasRecordingFinalizer recDeletedBare = false) ∧
      ((∀ c ∈ (Reconcile (envOf recDeletedBare jfrReady [] []) false req1).trace,
          c.isSetup = true) ∧
        (∀ r, Call.StatusUpdate r ∉ (Reconcile (envOf recDeletedBare jfrReady [] []) false req1).trace) ∧
        (∀ r, Call.Update r ∉ (Reconcile (envOf recDeletedBare jfrReady [] []) false req1).trace) ∧
        (∀ i, (Reconcile (envOf recDeletedBare jfrReady [] []) false req1).inst = some i →
          i = recDeletedBare) ∧
        (∀ i, (Reconcile (envOf recDeletedBare jfrReady [] []) false req1).stored = some i →
          i = recDeletedBare)) :=
  ⟨⟨by decide, by decide⟩,
    Reconcile_deleted_without_finalizer (envOf recDeletedBare jfrReady [] []) false req1
      recDeletedBare rfl (by decide) (by decide)⟩

/-- Counterexample to C6: for `recAtRest` (stopped, download URL set, finalizer present, no
deletion marker) and a remote agent that reports it unchanged, `Reconcile` still has
Container JFR connect to the target service and lists the live recordings; the status it
leaves is the one it found. -/
theorem at_rest_still_lists_recordings :
    recAtRest.Status.State = some RecordingStateStopped ∧
      recAtRest.Status.DownloadURL = some "https://cjfr/rec1.jfr" ∧
      recAtRest.DeletionTimestamp = none ∧ hasRecordingFinalizer recAtRest = true ∧
      Call.ConnectToService svc1 9091 ∈ (Reconcile envAtRest true req1).trace ∧
      Call.ListRecordings ∈ (Reconcile envAtRest true req1).trace ∧
      (Reconcile envAtRest true req1).stored = some recAtRest := by
  decide

/-- Witness of C6, amended, on `recAtRest`. -/
theorem Reconcile_at_rest_witness :
    (recAtRest.Status.State = some RecordingStateStopped ∧ recAtRest.DeletionTimestamp = none ∧
        hasRecordingFinalizer recAtRest = true) ∧
      ((∀ c ∈ (Reconcile envAtRest true req1).trace,
          c.isSetup = true ∨ c = Call.ListRecordings ∨ c = Call.CloseClient ∨
            c = Call.StatusUpdate recAtRest) ∧
        (∀ i, (Reconcile envAtRest true req1).inst = some i → i = recAtRest) ∧
        (∀ i, (Reconcile envAtRest true req1).stored = some i → i = recAtRest)) :=
  ⟨⟨rfl, rfl, by decide⟩,
    Reconcile_at_rest envAtRest true req1 recAtRest "https://cjfr/rec1.jfr" rfl rfl rfl rfl
      (by decide) (fun ds descriptor hds hd => by
        have hds2 : ds = [descAtRest] := by
          cases hds; rfl
        subst hds2
        have hd2 : descriptor = descAtRest := by
          simp [findDescriptor, descAtRest, recAtRest, rec1] at hd
          exact hd.symm
        subst hd2
        decide)⟩

/-- Counterexample to C4: `Reconcile` returns no error for `recNoRef`, which has no deletion
marker and refers to no FlightRecorder, and leaves it without the finalizer; it returns
no error for `recDeleting`, which carries a deletion marker, while the FlightRecorder has
not reported its target, and leaves the finalizer in the store; and it returns no error
for `recDeletingTwice`, which carries a deletion marker and the token twice, and leaves
one token in the store. -/
theorem finalizer_invariant_early_returns :
    (recNoRef.DeletionTimestamp = none ∧
        (Reconcile (envOf recNoRef jfrReady [] []) false req1).err = none ∧
        (Reconcile (envOf recNoRef jfrReady [] []) false req1).inst = some recNoRef ∧
        hasRecordingFinalizer recNoRef = false) ∧
      (recDeleting.DeletionTimestamp ≠ none ∧
        (Reconcile (envOf recDeleting jfrPending [] []) false req1).err = none ∧
        (Reconcile (envOf recDeleting jfrPending [] []) false req1).stored = some recDeleting ∧
        hasRecordingFinalizer recDeleting = true) ∧
      (recDeletingTwice.DeletionTimestamp ≠ none ∧
        (Reconcile (envOf recDeletingTwice jfrReady [] []) false req1).err = none ∧
        (Reconcile (envOf recDeletingTwice jfrReady [] []) false req1).stored = some recDeleting ∧
        hasRecordingFinalizer recDeleting = true) := by
  decide

/-- Witness of C4, amended: the first reconciliation of `rec1` adds the finalizer. -/
theorem Reconcile_finalizer_invariant_witness :
    ((getFlightRecorder envStart rec1).1 = .ok (some jfrReady) ∧ jfrReady.Target ≠ none ∧
        (Reconcile envStart false req1).err = none) ∧
      ((rec1.DeletionTimestamp = none →
          ∃ i s, (Reconcile envStart false req1).inst = some i ∧
            (Reconcile envStart false req1).stored = some s ∧
            hasRecordingFinalizer i = true ∧ hasRecordingFinalizer s = true) ∧
        (rec1.DeletionTimestamp ≠ none →
          ∃ s, (Reconcile envStart false req1).stored = some s ∧
            s.Finalizers = rec1.Finalizers.erase recordingFinalizer ∧
            (rec1.Finalizers.count recordingFinalizer ≤ 1 → hasRecordingFinalizer s = false))) :=
  ⟨⟨rfl, by decide, by decide⟩,
    Reconcile_finalizer_invariant envStart false req1 rec1 jfrReady rfl rfl (by decide)
      (by decide)⟩

/-- Counterexample to C10: `recHeld` already holds the finalizer, and
`addRecordingFinalizer` appends a second token instead of leaving the list unchanged. -/
theorem addRecordingFinalizer_appends_twice :
    hasRecordingFinalizer recHeld = true ∧
      (addRecordingFinalizer envStart recHeld recHeld).recording.Finalizers =
        [recordingFinalizer, recordingFinalizer] ∧
      (addRecordingFinalizer envStart recHeld recHeld).recording.Finalizers ≠ recHeld.Finalizers := by
  decide

/-- Witness of C10, amended: `recHeld` is fetched, is not being deleted and holds the
finalizer, and its reconciliation under `envHeld` issues no update. -/
theorem finalizer_add_remove_witness :
    (envHeld.GetRecording req1.Namespace req1.Name = .ok recHeld ∧
        recHeld.DeletionTimestamp = none ∧ hasRecordingFinalizer recHeld = true ∧
        Call.StartRecording "rec1" [] ∈ (Reconcile envHeld false req1).trace) ∧
      ((addRecordingFinalizer envHeld recHeld recHeld).recording.Finalizers =
          recHeld.Finalizers ++ [recordingFinalizer] ∧
        hasRecordingFinalizer (addRecordingFinalizer envHeld recHeld recHeld).recording = true ∧
        (envHeld.GetRecording req1.Namespace req1.Name = .ok recHeld →
          recHeld.DeletionTimestamp = none → hasRecordingFinalizer recHeld = true →
          ∀ r, Call.Update r ∉ (Reconcile envHeld false req1).trace) ∧
        (removeRecordingFinalizer envHeld recHeld recHeld).recording.Finalizers =
          recHeld.Finalizers.erase recordingFinalizer ∧
        (hasRecordingFinalizer recHeld = true ∨
          removeRecordingFinalizer envHeld recHeld recHeld = ⟨none, recHeld, recHeld, []⟩)) :=
  ⟨⟨rfl, rfl, by decide, by decide⟩, finalizer_add_remove envHeld false req1 recHeld recHeld⟩

end RecordingController
